import Mathlib

/-!
Verification of the `integral-philosophy-core` text-processing subsystem:
the MarkdownTeX parser (`parsers/markdowntex_parser.py`), the TEI XML
generator (`generators/tei_generator.py`) and the HTML/TEI round-trip
validator (`generators/html_tei_converter.py`).

Strings are modelled as `List Char` (Python `str` is a sequence of code
points).  Python's regular-expression calls are modelled by equivalent
deterministic matchers: every pattern used by the parser consists of
literal delimiters and greedy character classes that exclude their own
closing delimiter, so `re.search`/`re.match` semantics reduce to
"leftmost position at which the structural matcher succeeds", which the
definitions below implement directly.
-/

namespace IPC

/-- Python `str.isspace` characters relevant to `str.strip()` (ASCII range,
as produced by the parser's inputs): space, tab, newline, carriage return,
vertical tab, form feed. -/
def pyIsSpace (c : Char) : Bool :=
  c = ' ' || c = '\t' || c = '\n' || c = '\r' || c = '\x0b' || c = '\x0c'

/-- Python `str.strip()` with no arguments: remove leading and trailing
whitespace. -/
def pyStrip (l : List Char) : List Char :=
  ((l.dropWhile pyIsSpace).reverse.dropWhile pyIsSpace).reverse

/-- Python `str.strip(chars)`: remove leading and trailing characters drawn
from `cs`. -/
def pyStripChars (cs : List Char) (l : List Char) : List Char :=
  ((l.dropWhile (cs.contains ·)).reverse.dropWhile (cs.contains ·)).reverse

/-- Python `text.split("\n")`: split on every newline, keeping empty
pieces (`"".split("\n") == [""]`). -/
def splitLines : List Char → List (List Char)
  | [] => [[]]
  | c :: rest =>
    if c = '\n' then [] :: splitLines rest
    else
      match splitLines rest with
      | [] => [[c]]
      | l :: ls => (c :: l) :: ls

/-- Python `"\n".join(ls)`. -/
def joinLines (ls : List (List Char)) : List Char :=
  match ls with
  | [] => []
  | [l] => l
  | l :: ls => l ++ '\n' :: joinLines ls

/-- `"$$" in line`: two adjacent dollar signs occur somewhere. -/
def hasMathMarker : List Char → Bool
  | c :: d :: rest => (c = '$' && d = '$') || hasMathMarker (d :: rest)
  | _ => false

/-- Substring test, Python `needle in haystack`. -/
def containsSeq (needle : List Char) : List Char → Bool
  | [] => needle.isEmpty
  | c :: rest => needle.isPrefixOf (c :: rest) || containsSeq needle rest

/-- The closed set of AST node kinds (`NodeType` in
`markdowntex_parser.py`). -/
inductive NodeType where
  | document | heading | paragraph | text | link | image
  | code_block | inline_code | math_block | inline_math
  | list | list_item | table | table_row | table_cell
  | quote | thematic_break | emphasis | strong | raw_html | metadata
deriving DecidableEq, Repr

/-- `NodeType.value`: the string tag of each node kind. -/
def NodeType.value : NodeType → List Char
  | .document => "document".toList
  | .heading => "heading".toList
  | .paragraph => "paragraph".toList
  | .text => "text".toList
  | .link => "link".toList
  | .image => "image".toList
  | .code_block => "code_block".toList
  | .inline_code => "inline_code".toList
  | .math_block => "math_block".toList
  | .inline_math => "inline_math".toList
  | .list => "list".toList
  | .list_item => "list_item".toList
  | .table => "table".toList
  | .table_row => "table_row".toList
  | .table_cell => "table_cell".toList
  | .quote => "quote".toList
  | .thematic_break => "thematic_break".toList
  | .emphasis => "emphasis".toList
  | .strong => "strong".toList
  | .raw_html => "raw_html".toList
  | .metadata => "metadata".toList

/-- `NodeType(tag)`: recover a node kind from its string tag
(raises `ValueError` in Python — modelled as `none` — when unknown). -/
def NodeType.ofValue (s : List Char) : Option NodeType :=
  if s = "document".toList then some .document
  else if s = "heading".toList then some .heading
  else if s = "paragraph".toList then some .paragraph
  else if s = "text".toList then some .text
  else if s = "link".toList then some .link
  else if s = "image".toList then some .image
  else if s = "code_block".toList then some .code_block
  else if s = "inline_code".toList then some .inline_code
  else if s = "math_block".toList then some .math_block
  else if s = "inline_math".toList then some .inline_math
  else if s = "list".toList then some .list
  else if s = "list_item".toList then some .list_item
  else if s = "table".toList then some .table
  else if s = "table_row".toList then some .table_row
  else if s = "table_cell".toList then some .table_cell
  else if s = "quote".toList then some .quote
  else if s = "thematic_break".toList then some .thematic_break
  else if s = "emphasis".toList then some .emphasis
  else if s = "strong".toList then some .strong
  else if s = "raw_html".toList then some .raw_html
  else if s = "metadata".toList then some .metadata
  else none

/-- Attribute values stored in a node's `attributes` mapping: strings
(`href`, `src`, `alt`, `format`, `language`, …), integers (`level`),
booleans (`ordered`) and string-to-string mappings (`metadata`). -/
inductive AttrVal where
  | s (v : List Char)
  | n (v : Int)
  | b (v : Bool)
  | dict (v : List (List Char × List Char))
deriving DecidableEq, Repr

mutual
/-- `ASTNode` of `markdowntex_parser.py`: kind, content, attributes and
(best-effort) position mapping. -/
inductive ASTNode where
  | mk (ty : NodeType) (content : NContent)
       (attributes : List (List Char × AttrVal))
       (position : List (List Char × Int))

/-- The `content` field of an `ASTNode`: `None`, a string, a list of
children, or (reachable through `dict_to_ast`) a single child node. -/
inductive NContent where
  | none
  | str (s : List Char)
  | list (l : List ASTNode)
  | node (n : ASTNode)
end

mutual
/-- The JSON-like record form produced by `_node_to_dict`: a `type` tag,
the attributes verbatim, an optional `content` entry and an optional
`position` entry (the key is absent when the position mapping is falsy). -/
inductive NodeDict where
  | mk (ty : List Char) (attributes : List (List Char × AttrVal))
       (content : Option DContent)
       (position : Option (List (List Char × Int)))

/-- The `content` entry of the record form. -/
inductive DContent where
  | str (s : List Char)
  | list (l : List NodeDict)
  | node (n : NodeDict)
end

mutual
/-- `MarkdownTeXParser._node_to_dict`: convert a node to its record form.
`content` is emitted whenever it is not `None` (strings, child lists and
single child nodes each keep their shape); `position` is emitted only when
the position mapping is non-empty. -/
def nodeToDict : ASTNode → NodeDict
  | .mk ty c attrs pos =>
    .mk (NodeType.value ty) attrs
      (match c with
       | .none => Option.none
       | .str s => some (.str s)
       | .list l => some (.list (nodeToDictList l))
       | .node n => some (.node (nodeToDict n)))
      (if pos = [] then Option.none else some pos)

/-- List-of-children form of `_node_to_dict` (the comprehension
`[self._node_to_dict(child) for child in node.content]`). -/
def nodeToDictList : List ASTNode → List NodeDict
  | [] => []
  | a :: as => nodeToDict a :: nodeToDictList as
end

mutual
/-- `MarkdownTeXParser.dict_to_ast`: convert a record back to a node.
An unknown `type` tag raises `ValueError` in Python, modelled as `none`.
A missing `content` key restores `None`; a missing `position` key restores
the empty mapping. -/
def dictToAst : NodeDict → Option ASTNode
  | .mk ty attrs c pos => do
    let t ← NodeType.ofValue ty
    let content ← match c with
      | Option.none => pure NContent.none
      | some (.str s) => pure (NContent.str s)
      | some (.list l) => do pure (NContent.list (← dictToAstList l))
      | some (.node n) => do pure (NContent.node (← dictToAst n))
    pure (ASTNode.mk t content attrs (pos.getD []))

/-- List form of `dict_to_ast` (the comprehension
`[self.dict_to_ast(item) for item in content]`). -/
def dictToAstList : List NodeDict → Option (List ASTNode)
  | [] => some []
  | d :: ds => do pure ((← dictToAst d) :: (← dictToAstList ds))
end

/-! ### Inline scanner (`MarkdownTeXParser._parse_inline`)

Each regex used by `_parse_inline` is a literal delimiter followed by a
greedy character class excluding the closing delimiter, so matching at a
given position is deterministic; `re.search` is the leftmost position at
which the matcher succeeds.  Each matcher returns its capture groups and
the total number of characters consumed. -/

/-- `!\[([^\]]*)\]\(([^)]+)\)` anchored at the head: `![`, a possibly
empty run of non-`]`, `](`, a non-empty run of non-`)`, `)`.  The run
after `](` is `takeWhile (· ≠ ')')`; a closing `)` exists exactly when
the corresponding `dropWhile` is non-empty (its head can only be `)`).
Returns `(alt, src, consumed)`. -/
def matchImageAt (s : List Char) : Option (List Char × List Char × Nat) :=
  let rest := s.drop 2
  let alt := rest.takeWhile (· ≠ ']')
  let rem := rest.dropWhile (· ≠ ']')
  let rest2 := rem.drop 2
  let src := rest2.takeWhile (· ≠ ')')
  if s.take 2 = ['!', '['] ∧ rem[1]? = some '(' ∧ src ≠ [] ∧
      rest2.dropWhile (· ≠ ')') ≠ [] then
    some (alt, src, alt.length + src.length + 5)
  else none

/-- `\[([^\]]+)\]\(([^)]+)\)` anchored at the head: returns
`(text, href, consumed)`. -/
def matchLinkAt (s : List Char) : Option (List Char × List Char × Nat) :=
  let rest := s.drop 1
  let txt := rest.takeWhile (· ≠ ']')
  let rem := rest.dropWhile (· ≠ ']')
  let rest2 := rem.drop 2
  let href := rest2.takeWhile (· ≠ ')')
  if s.head? = some '[' ∧ txt ≠ [] ∧ rem[1]? = some '(' ∧ href ≠ [] ∧
      rest2.dropWhile (· ≠ ')') ≠ [] then
    some (txt, href, txt.length + href.length + 4)
  else none

/-- A span `o …body… o` where `body` is a non-empty run excluding `o`:
the shape of the inline-code (`` `([^`]+)` ``), inline-math
(`\$([^$]+)\$`) and emphasis (`\*([^*]+)\*`) regexes. -/
def matchSpanAt (o : Char) (s : List Char) : Option (List Char × Nat) :=
  let rest := s.drop 1
  let body := rest.takeWhile (· ≠ o)
  if s.head? = some o ∧ body ≠ [] ∧ rest.dropWhile (· ≠ o) ≠ [] then
    some (body, body.length + 2)
  else none

/-- `\*\*([^*]+)\*\*` anchored at the head: after the non-`*` run the
next two characters must both be `*` (the first is automatic when the
`dropWhile` residue is non-empty).  Returns `(inner, consumed)`. -/
def matchStrongAt (s : List Char) : Option (List Char × Nat) :=
  let rest := s.drop 2
  let body := rest.takeWhile (· ≠ '*')
  let rem := rest.dropWhile (· ≠ '*')
  if s.take 2 = ['*', '*'] ∧ body ≠ [] ∧ rem[1]? = some '*' then
    some (body, body.length + 4)
  else none

/-- `re.search`: the leftmost offset at which the anchored matcher
succeeds, together with the matcher's result. -/
def searchPat (m : List Char → Option α) : List Char → Option (Nat × α)
  | [] => (m []).map ((0, ·))
  | c :: cs =>
    match m (c :: cs) with
    | some a => some (0, a)
    | none => (searchPat m cs).map (fun p => (p.1 + 1, p.2))

/-- The six inline candidates, tagged with their capture groups. -/
inductive InlineMatch where
  | image (alt src : List Char)
  | link (txt href : List Char)
  | code (c : List Char)
  | math (m : List Char)
  | strong (inner : List Char)
  | emph (inner : List Char)

/-- The `for pattern_name, pattern in patterns` loop of `_parse_inline`:
try `image`, `link`, `inline_code`, `inline_math`, `strong`, `emphasis`
in that order and keep the first pattern that matches anywhere in the
remaining text (with that pattern's leftmost match).  Returns
`(start, groups, match length)`. -/
def prioritySearch (s : List Char) : Option (Nat × InlineMatch × Nat) :=
  match searchPat matchImageAt s with
  | some (i, alt, src, len) => some (i, .image alt src, len)
  | none =>
  match searchPat matchLinkAt s with
  | some (i, txt, href, len) => some (i, .link txt href, len)
  | none =>
  match searchPat (matchSpanAt '`') s with
  | some (i, c, len) => some (i, .code c, len)
  | none =>
  match searchPat (matchSpanAt '$') s with
  | some (i, m, len) => some (i, .math m, len)
  | none =>
  match searchPat matchStrongAt s with
  | some (i, b, len) => some (i, .strong b, len)
  | none =>
  match searchPat (matchSpanAt '*') s with
  | some (i, b, len) => some (i, .emph b, len)
  | none => none

def textNode (s : List Char) : ASTNode := .mk .text (.str s) [] []

def imageNode (alt src : List Char) : ASTNode :=
  .mk .image .none [("alt".toList, .s alt), ("src".toList, .s src)] []

def linkNode (content : List ASTNode) (href : List Char) : ASTNode :=
  .mk .link (.list content) [("href".toList, .s href)] []

def codeNode (c : List Char) : ASTNode := .mk .inline_code (.str c) [] []

def mathNode (m : List Char) : ASTNode :=
  .mk .inline_math (.str m) [("format".toList, .s "latex".toList)] []

def strongNode (content : List ASTNode) : ASTNode :=
  .mk .strong (.list content) [] []

def emphNode (content : List ASTNode) : ASTNode :=
  .mk .emphasis (.list content) [] []

/-- The `while remaining_text` loop of `_parse_inline`, with a fuel
argument bounding the number of iterations (each iteration consumes at
least one character, so `remaining_text.length` fuel always suffices —
see `parseInlineGo_congr`). -/
def parseInlineGo : Nat → List Char → List ASTNode
  | 0, _ => []
  | fuel + 1, s =>
    if s = [] then []
    else
      match prioritySearch s with
      | some (i, m, len) =>
        (if 0 < i then [textNode (s.take i)] else []) ++
        (match m with
         | .image alt src => imageNode alt src
         | .link txt href => linkNode (parseInlineGo fuel txt) href
         | .code c => codeNode c
         | .math mm => mathNode mm
         | .strong inner => strongNode (parseInlineGo fuel inner)
         | .emph inner => emphNode (parseInlineGo fuel inner)) ::
        parseInlineGo fuel (s.drop (i + len))
      | none => [textNode s]

/-- `MarkdownTeXParser._parse_inline`. -/
def parseInline (s : List Char) : List ASTNode := parseInlineGo s.length s

/-- The node built from a selected inline match (`_parse_inline`'s
per-pattern `elif` chain); link, strong and emphasis recursively scan
their captured inner text. -/
def inlineNodeOf : InlineMatch → ASTNode
  | .image alt src => imageNode alt src
  | .link txt href => linkNode (parseInline txt) href
  | .code c => codeNode c
  | .math m => mathNode m
  | .strong b => strongNode (parseInline b)
  | .emph b => emphNode (parseInline b)

/-- Length of the capture group that is recursively scanned (zero for the
non-recursive candidates). -/
def InlineMatch.innerLen : InlineMatch → Nat
  | .link txt _ => txt.length
  | .strong b => b.length
  | .emph b => b.length
  | _ => 0


/-- All candidate matches of the remaining text, in priority order. -/
def inlineCandidates (s : List Char) : List (Nat × InlineMatch × Nat) :=
  ((searchPat matchImageAt s).map
      (fun p => (p.1, InlineMatch.image p.2.1 p.2.2.1, p.2.2.2))).toList ++
  ((searchPat matchLinkAt s).map
      (fun p => (p.1, InlineMatch.link p.2.1 p.2.2.1, p.2.2.2))).toList ++
  ((searchPat (matchSpanAt '`') s).map
      (fun p => (p.1, InlineMatch.code p.2.1, p.2.2))).toList ++
  ((searchPat (matchSpanAt '$') s).map
      (fun p => (p.1, InlineMatch.math p.2.1, p.2.2))).toList ++
  ((searchPat matchStrongAt s).map
      (fun p => (p.1, InlineMatch.strong p.2.1, p.2.2))).toList ++
  ((searchPat (matchSpanAt '*') s).map
      (fun p => (p.1, InlineMatch.emph p.2.1, p.2.2))).toList

/-- The claim's selection rule: minimum start offset, ties broken by
priority order (an earlier list entry is kept unless a later one starts
strictly earlier). -/
def earliestSelect (s : List Char) : Option (Nat × InlineMatch × Nat) :=
  (inlineCandidates s).foldl
    (fun acc c =>
      match acc with
      | Option.none => some c
      | some b => if c.1 < b.1 then some c else some b)
    Option.none

/-- The node the claim predicts is emitted next: the text before the
earliest-offset candidate when that offset is positive, otherwise the
node of the selected candidate itself. -/
def claimNextNode (s : List Char) : Option ASTNode :=
  match earliestSelect s with
  | Option.none => Option.none
  | some (i, m, _) =>
    if 0 < i then some (textNode (s.take i)) else some (inlineNodeOf m)

/-! ### Block segmenter (`MarkdownTeXParser._split_into_blocks`) -/

/-- `line.strip().startswith("```")`. -/
def isFenceLine (l : List Char) : Bool := "```".toList.isPrefixOf (pyStrip l)

/-- `if current_block.strip(): blocks.append(current_block.strip())`. -/
def appendStripped (blocks : List (List Char)) (cur : List Char) : List (List Char) :=
  if pyStrip cur ≠ [] then blocks ++ [pyStrip cur] else blocks

/-- The `for line in lines` loop of `_split_into_blocks`, carrying
`(blocks, current_block, in_code_block, in_math_block)`.  The Python
`code_fence` variable is tracked but never read back, so it is omitted.
Inside a fenced block the math-marker test is still performed (the code
checks only `in_math_block`), faithful to the source. -/
def splitLoop : List (List Char) → List (List Char) → List Char → Bool → Bool →
    List (List Char)
  | [], blocks, cur, _, _ => appendStripped blocks cur
  | line :: rest, blocks, cur, inCode, inMath =>
    if isFenceLine line then
      if !inCode then
        splitLoop rest (appendStripped blocks cur) (line ++ ['\n']) true inMath
      else
        splitLoop rest (blocks ++ [pyStrip (cur ++ line ++ ['\n'])]) [] false inMath
    else if hasMathMarker line && !inMath then
      splitLoop rest (appendStripped blocks cur) (line ++ ['\n']) inCode true
    else if hasMathMarker line && inMath then
      splitLoop rest (blocks ++ [pyStrip (cur ++ line ++ ['\n'])]) [] inCode false
    else
      let cur2 := cur ++ line ++ ['\n']
      if !inCode && !inMath && pyStrip line = [] then
        splitLoop rest (appendStripped blocks cur2)
          (if pyStrip cur2 ≠ [] then [] else cur2) inCode inMath
      else
        splitLoop rest blocks cur2 inCode inMath

/-- `MarkdownTeXParser._split_into_blocks`: run the line loop, then
`return [b for b in blocks if b.strip()]`. -/
def splitIntoBlocks (text : List Char) : List (List Char) :=
  (splitLoop (splitLines text) [] [] false false).filter (fun b => pyStrip b ≠ [])

/-! ### Block classification (`MarkdownTeXParser._parse_block`) -/

/-- The trailing `\s+(.+)$` part of the heading / list-item regexes,
applied to the text after the marker: a non-empty greedy whitespace run,
then at least one non-newline character, then end of line.  When the
whole remainder is whitespace the greedy run backtracks: the group
becomes the last non-newline character, provided at least one whitespace
character precedes it. -/
def matchSpacePlusRest (t : List Char) : Option (List Char) :=
  let g := t.takeWhile pyIsSpace
  let r := t.dropWhile pyIsSpace
  if g = [] then none
  else if r ≠ [] then some (r.takeWhile (· ≠ '\n'))
  else
    let k := g.reverse.dropWhile (· = '\n')
    if 2 ≤ k.length then some [k.headD ' '] else none

/-- `^(#{1,6})\s+(.+)$` (`re.match`): level and heading text. -/
def matchHeading (s : List Char) : Option (Nat × List Char) :=
  let hashes := s.takeWhile (· = '#')
  if 1 ≤ hashes.length ∧ hashes.length ≤ 6 then
    (matchSpacePlusRest (s.drop hashes.length)).map ((hashes.length, ·))
  else none

/-- `^\s*[-*+]\s+(.+)$` (`re.match`): unordered list item content. -/
def matchListItem (line : List Char) : Option (List Char) :=
  match line.dropWhile pyIsSpace with
  | c :: tail =>
    if c = '-' || c = '*' || c = '+' then matchSpacePlusRest tail else none
  | [] => none

/-- `^\s*\d+\.\s+(.+)$` (`re.match`): ordered list item content. -/
def matchOrderedItem (line : List Char) : Option (List Char) :=
  let r := line.dropWhile pyIsSpace
  let ds := r.takeWhile (·.isDigit)
  if ds ≠ [] then
    match r.drop ds.length with
    | '.' :: tail => matchSpacePlusRest tail
    | _ => none
  else none

/-- `\\begin{env}(.*?)\\end{env}` with `re.match`: the block starts with
the begin tag and the end tag occurs somewhere after it. -/
def texEnvMatch (bg ed : List Char) (block : List Char) : Bool :=
  bg.isPrefixOf block && containsSeq ed (block.drop bg.length)

/-- The `for tex_type, pattern in self.tex_patterns.items()` loop:
`equation`, `align` (with optional `*` on either tag), `gather`,
`theorem`, `proof`, in insertion order. -/
def texBlockType (block : List Char) : Option (List Char) :=
  if texEnvMatch "\\begin{equation}".toList "\\end{equation}".toList block then
    some "equation".toList
  else if (texEnvMatch "\\begin{align*}".toList "\\end{align}".toList block ||
           texEnvMatch "\\begin{align*}".toList "\\end{align*}".toList block ||
           texEnvMatch "\\begin{align}".toList "\\end{align}".toList block ||
           texEnvMatch "\\begin{align}".toList "\\end{align*}".toList block) then
    some "align".toList
  else if texEnvMatch "\\begin{gather}".toList "\\end{gather}".toList block then
    some "gather".toList
  else if texEnvMatch "\\begin{theorem}".toList "\\end{theorem}".toList block then
    some "theorem".toList
  else if texEnvMatch "\\begin{proof}".toList "\\end{proof}".toList block then
    some "proof".toList
  else none

/-- `MarkdownTeXParser._parse_math_block`: strip `$` and newlines from
both ends, attribute `format: latex`. -/
def parseMathBlock (text : List Char) : ASTNode :=
  .mk .math_block (.str (pyStripChars ['$', '\n'] text))
    [("format".toList, .s "latex".toList)] []

/-- `MarkdownTeXParser._parse_code_block`: language from the fence line,
code from the lines strictly between the first and the last line. -/
def parseCodeBlock (text : List Char) : ASTNode :=
  let lines := splitLines (pyStrip text)
  let ok := !lines.isEmpty && "```".toList.isPrefixOf (lines.headD [])
  let lang := if ok then pyStrip ((lines.headD []).drop 3) else []
  let code := if ok then joinLines ((lines.drop 1).dropLast) else text
  .mk .code_block (.str code) [("language".toList, .s lang)] []

/-- `MarkdownTeXParser._parse_tex_block`: whole block kept verbatim. -/
def parseTexBlock (text envName : List Char) : ASTNode :=
  .mk .math_block (.str text)
    [("format".toList, .s "latex".toList), ("environment".toList, .s envName)] []

/-- The per-line loop of `_parse_list`: ordered match first, the
`ordered` flag latches once any numbered line is seen. -/
def parseListGo : List (List Char) → Bool → List ASTNode × Bool
  | [], ord => ([], ord)
  | line :: rest, ord =>
    match matchOrderedItem line with
    | some g =>
      let r := parseListGo rest true
      (ASTNode.mk .list_item (.list (parseInline g)) [] [] :: r.1, r.2)
    | none =>
      match matchListItem line with
      | some g =>
        let r := parseListGo rest ord
        (ASTNode.mk .list_item (.list (parseInline g)) [] [] :: r.1, r.2)
      | none => parseListGo rest ord

/-- `MarkdownTeXParser._parse_list`. -/
def parseList (text : List Char) : ASTNode :=
  let r := parseListGo (splitLines (pyStrip text)) false
  .mk .list (.list r.1) [("ordered".toList, .b r.2)] []

/-- Split on a delimiter character, Python `line.split("|")`. -/
def splitOnChar (d : Char) : List Char → List (List Char)
  | [] => [[]]
  | c :: rest =>
    if c = d then [] :: splitOnChar d rest
    else
      match splitOnChar d rest with
      | [] => [[c]]
      | l :: ls => (c :: l) :: ls

/-- `MarkdownTeXParser._parse_table`: every line starting (after strip)
with `|` becomes a row; cells are `line.split("|")[1:-1]`, stripped. -/
def parseTable (text : List Char) : ASTNode :=
  let lines := (splitLines (pyStrip text)).filter
    (fun l => "|".toList.isPrefixOf (pyStrip l))
  let rows := lines.map (fun line =>
    let cells := (((splitOnChar '|' line).drop 1).dropLast).map pyStrip
    ASTNode.mk .table_row
      (.list (cells.map (fun c =>
        ASTNode.mk .table_cell (.list (parseInline c)) [] []))) [] [])
  .mk .table (.list rows) [] []

/-- `MarkdownTeXParser._parse_quote`: keep lines starting with `>`,
drop the marker, re-join and scan inline. -/
def parseQuote (text : List Char) : ASTNode :=
  let lines := splitLines (pyStrip text)
  let quoted := (lines.filter (fun l => ">".toList.isPrefixOf (pyStrip l))).map
    (fun l => pyStrip ((pyStrip l).drop 1))
  .mk .quote (.list (parseInline (joinLines quoted))) [] []

/-- `MarkdownTeXParser._parse_paragraph`. -/
def parseParagraph (text : List Char) : ASTNode :=
  .mk .paragraph (.list (parseInline (pyStrip text))) [] []

/-- `MarkdownTeXParser._parse_block`: first-match-wins classification in
source order (math marker, fence, TeX environments, heading, list,
table, quote, thematic break, paragraph). -/
def parseBlock (block : List Char) : Option ASTNode :=
  if pyStrip block = [] then none
  else if hasMathMarker block then some (parseMathBlock block)
  else if isFenceLine block then some (parseCodeBlock block)
  else
    match texBlockType block with
    | some ty => some (parseTexBlock block ty)
    | none =>
      match matchHeading (pyStrip block) with
      | some p =>
        some (.mk .heading (.list (parseInline p.2))
          [("level".toList, .n p.1)] [])
      | none =>
        if (matchListItem block).isSome || (matchOrderedItem block).isSome then
          some (parseList block)
        else if containsSeq "|".toList block &&
            "|".toList.isPrefixOf (pyStrip block) then
          some (parseTable block)
        else if ">".toList.isPrefixOf (pyStrip block) then
          some (parseQuote block)
        else if pyStrip ((pyStrip block).filter (· ≠ '-')) = [] then
          some (.mk .thematic_break .none [] [])
        else
          some (parseParagraph block)

/-! ### Front matter (`MarkdownTeXParser._extract_metadata`) and `parse` -/

/-- Index of the last newline in a list, if any. -/
def lastNewlinePos (w : List Char) : Option Nat :=
  let t := w.reverse.takeWhile (· ≠ '\n')
  if t.length = w.length then none else some (w.length - 1 - t.length)

/-- Locate the closing delimiter of the front-matter regex
`(.*?)\n---\s*\n` (lazy group): the first offset `j` at which `\n---`
occurs and the following whitespace run contains a newline; the match
consumes through the last newline of that run.  Returns
`(group length, characters consumed)`. -/
def findMetaClose : List Char → Option (Nat × Nat)
  | [] => none
  | c :: rest =>
    if c = '\n' && "---".toList.isPrefixOf rest then
      match lastNewlinePos ((rest.drop 3).takeWhile pyIsSpace) with
      | some q => some (0, 4 + q + 1)
      | none => (findMetaClose rest).map (fun p => (p.1 + 1, p.2 + 1))
    else (findMetaClose rest).map (fun p => (p.1 + 1, p.2 + 1))

/-- The newline offsets inside a whitespace run, largest first: the
candidate lengths for the greedy `\s*` before the opening delimiter's
`\n`, in backtracking order. -/
def newlinePositionsDesc (w : List Char) : List Nat :=
  ((List.range w.length).filter (fun i => w[i]? = some '\n')).reverse

/-- `^---\s*\n(.*?)\n---\s*\n` with `re.match` (MULTILINE + DOTALL):
the greedy leading `\s*` tries to end at each newline of the whitespace
run after `---`, longest first; for each choice the lazy group looks for
the earliest closing delimiter.  Returns `(group 1, match end)`. -/
def matchMetadata (text : List Char) : Option (List Char × Nat) :=
  if "---".toList.isPrefixOf text then
    let r := text.drop 3
    (newlinePositionsDesc (r.takeWhile pyIsSpace)).findSome? (fun p =>
      (findMetaClose (r.drop (p + 1))).map
        (fun q => ((r.drop (p + 1)).take q.1, 3 + p + 1 + q.2)))
  else none

/-- Insert-or-overwrite into the ordered mapping (Python dict
assignment). -/
def upsert (k v : List Char) : List (List Char × List Char) →
    List (List Char × List Char)
  | [] => [(k, v)]
  | (k0, v0) :: rest => if k0 = k then (k0, v) :: rest else (k0, v0) :: upsert k v rest

/-- The `except ImportError` fallback of `_extract_metadata`: split the
stripped group into lines and collect `key: value` pairs (first colon
wins; keys and values stripped). -/
def fallbackMeta (g : List Char) : List (List Char × List Char) :=
  (splitLines (pyStrip g)).foldl
    (fun acc line =>
      if line.contains ':' then
        upsert (pyStrip (line.takeWhile (· ≠ ':')))
          (pyStrip ((line.dropWhile (· ≠ ':')).drop 1)) acc
      else acc)
    []

/-- The behaviour of the external `yaml.safe_load` call: `none` models
`import yaml` raising `ImportError` (the fallback parser is used);
`some f` models an installed yaml library, where `f` maps the
front-matter text to either a parsed scalar mapping or a raised
`YAMLError` (`Except.error`).  Only `ImportError` is caught by
`_extract_metadata`, so a `YAMLError` propagates. -/
def YamlOracle : Type :=
  Option (List Char → Except (List Char) (List (List Char × List Char)))

/-- `MarkdownTeXParser._extract_metadata`. -/
def extractMetadata (yaml : YamlOracle) (text : List Char) :
    Except (List Char) (Option (List (List Char × List Char))) :=
  match matchMetadata text with
  | Option.none => .ok Option.none
  | some (g, _) =>
    match yaml with
    | some f => (f g).map some
    | Option.none => .ok (some (fallbackMeta g))

/-- One pass of `re.sub` for the metadata pattern (MULTILINE `^`):
try a match at every line start, skip past each match (which always ends
just after a newline), and copy other characters through. -/
def subMetadataGo : Nat → List Char → Bool → List Char
  | 0, s, _ => s
  | fuel + 1, s, atStart =>
    match (if atStart then matchMetadata s else Option.none) with
    | some p => subMetadataGo fuel (s.drop p.2) true
    | Option.none =>
      match s with
      | [] => []
      | c :: rest => c :: subMetadataGo fuel rest (c = '\n')

/-- `self.patterns["metadata"].sub("", markdown_text)`. -/
def subMetadata (s : List Char) : List Char := subMetadataGo s.length s true

/-- `MarkdownTeXParser.parse`: extract front matter (exceptions from the
yaml oracle propagate), strip the metadata block when the parsed mapping
is truthy, segment the remainder and classify each segment. -/
def parse (yaml : YamlOracle) (text : List Char) :
    Except (List Char) ASTNode := do
  let metadata ← extractMetadata yaml text
  let truthy := metadata.getD [] ≠ []
  let content := if truthy then pyStrip (subMetadata text) else text
  let blocks := splitIntoBlocks content
  pure (.mk .document (.list (blocks.filterMap parseBlock))
    (if truthy then [("metadata".toList, AttrVal.dict (metadata.getD []))] else [])
    [])

/-! ### TEI XML generator (`generators/tei_generator.py`)

`xml.etree` elements are modelled by `XElem`: qualified tag, ordered
attribute list, optional text (the `.text` slot; tails are never used by
the generator) and ordered children.  The clock readings
(`datetime.now()`) and the `uuid4` fallback of `_create_page_id` are
explicit parameters, since they are the only inputs of the generator not
derived from its argument. -/

structure XElem where
  tag : List Char
  attrs : List (List Char × List Char)
  text : Option (List Char)
  children : List XElem

def teiNs : List Char := "http://www.tei-c.org/ns/1.0".toList

def xmlNs : List Char := "http://www.w3.org/XML/1998/namespace".toList

/-- An `ElementTree` qualified name `\x7buri\x7dlocal`. -/
def qn (ns name : List Char) : List Char := '\x7b' :: (ns ++ '\x7d' :: name)

def qtei (name : String) : List Char := qn teiNs name.toList

def qxml (name : String) : List Char := qn xmlNs name.toList

/-- Python `dict.get(key)`. -/
def dictGet (d : List (List Char × List Char)) (k : List Char) :
    Option (List Char) :=
  (d.find? (fun p => p.1 = k)).map (·.2)

/-- Python `dict.get(key, default)`. -/
def dictGetD (d : List (List Char × List Char)) (k dflt : List Char) :
    List Char :=
  (dictGet d k).getD dflt

/-- `TEIGenerator.generate_tei_header`, parameterised by the clock
reading `nowIso` (`datetime.now().isoformat()`); the date element uses
the date part (`.split("T")[0]`, equal to `strftime("%Y-%m-%d")`).  The
element nesting mirrors the source's reassigned `SubElement` variables:
the `teiHeader` holds `fileDesc` and `profileDesc`; `author`,
`publicationStmt` and `sourceDesc` all hang off `titleStmt`, and
`encodingDesc` off `profileDesc`. -/
def generateTeiHeader (nowIso : List Char)
    (md : List (List Char × List Char)) : XElem :=
  let lang := dictGetD md "language".toList "en".toList
  let datePart := nowIso.takeWhile (· ≠ 'T')
  let title := XElem.mk (qtei "title")
    [(qxml "lang", lang), ("type".toList, "main".toList)]
    (some (dictGetD md "title".toList
      (dictGetD md "base_url".toList "Untitled Site".toList))) []
  let author := XElem.mk (qtei "author") [] none
    [XElem.mk (qtei "name") [] (some (dictGetD md "author".toList "Web Scraper".toList)) []]
  let publicationStmt := XElem.mk (qtei "publicationStmt") [] none
    [XElem.mk (qtei "publisher") []
      (some "Integral Philosophy Publishing System".toList) [],
     XElem.mk (qtei "date")
      [("when".toList, datePart), ("type".toList, "creation".toList)]
      (some datePart) []]
  let sourceBibl := XElem.mk (qtei "bibl") [] none
    ([XElem.mk (qtei "title") []
        (some (dictGetD md "base_url".toList "Unknown Source".toList)) []] ++
     (match dictGet md "scraped_at".toList with
      | some v => [XElem.mk (qtei "note") [("type".toList, "scraper".toList)]
          (some ("Scraped on ".toList ++ v)) []]
      | none => []))
  let sourceDesc := XElem.mk (qtei "sourceDesc") [] none [sourceBibl]
  let titleStmt := XElem.mk (qtei "titleStmt") [] none
    [title, author, publicationStmt, sourceDesc]
  let fileDesc := XElem.mk (qtei "fileDesc") [] none [titleStmt]
  let profileDesc := XElem.mk (qtei "profileDesc") [] none
    [XElem.mk (qtei "langUsage") [] none
      [XElem.mk (qtei "language") [("ident".toList, lang)]
        (some (dictGetD md "language".toList "English".toList)) []],
     XElem.mk (qtei "encodingDesc") [] none
      [XElem.mk (qtei "projectDesc") []
        (some ("This document was automatically generated from web content using the Integral Philosophy Publishing System.".toList)) []]]
  XElem.mk (qtei "TEI") [(qxml "lang", lang)] none
    [XElem.mk (qtei "teiHeader") [] none [fileDesc, profileDesc]]

/-- `TEIGenerator._create_page_id`: sanitise a URL into an XML id
(`[^a-zA-Z0-9_-]` replaced by `_`, a non-letter/underscore first
character replaced by `_`, truncated to 50); falls back to
`page_` plus eight hex digits of a fresh `uuid4`, passed in as
`uuidHex`. -/
def createPageId (uuidHex url : List Char) : List Char :=
  let clean1 := url.map (fun c =>
    if c.isAlpha || c.isDigit || c = '_' || c = '-' then c else '_')
  let clean2 := match clean1 with
    | [] => []
    | c :: r => if c.isAlpha || c = '_' then c :: r else '_' :: r
  let clean3 := clean2.take 50
  if clean3 = [] then "page_".toList ++ uuidHex.take 8 else clean3

/-- The message raised by `xml.etree` when `SubElement` is given `None`
as parent. -/
def subElementNoneError : List Char :=
  "TypeError: SubElement() argument 1 must be xml.etree.ElementTree.Element, not None".toList

/-- `dict.get("level", 1)` for the heading branch. -/
def attrGetInt (attrs : List (List Char × AttrVal)) (k : List Char)
    (dflt : Int) : Int :=
  match ((attrs.find? (fun p => p.1 = k)).map Prod.snd : Option AttrVal) with
  | some (.n v) => v
  | _ => dflt

/-- Decimal digits of a natural number (for `f"heading-{level}"`). -/
def natDigits (n : Nat) : List Char := (toString n).toList

/-- `TEIGenerator._convert_ast_to_tei`.  Every branch of the source
creates its element with `SubElement(None, tag, attrib)` — but
`xml.etree.SubElement` requires an `Element` parent and raises
`TypeError` on `None` (verified against the library), so each mapped
branch raises before any child handling; the remainder of each branch is
unreachable.  Unsupported node kinds still `return None` without
touching `SubElement`. -/
def convertAstToTei (node : ASTNode) : Except (List Char) (Option XElem) :=
  match node with
  | .mk ty _ _ _ =>
    match ty with
    | .document => .error subElementNoneError
    | .heading => .error subElementNoneError
    | .paragraph => .error subElementNoneError
    | .link => .error subElementNoneError
    | .image => .error subElementNoneError
    | .code_block => .error subElementNoneError
    | .inline_code => .error subElementNoneError
    | .math_block => .error subElementNoneError
    | .inline_math => .error subElementNoneError
    | .list => .error subElementNoneError
    | .list_item => .error subElementNoneError
    | .quote => .error subElementNoneError
    | .strong => .error subElementNoneError
    | .emphasis => .error subElementNoneError
    | .text => .error subElementNoneError
    | _ => .ok none

/-- A page entry of the site AST: its metadata mapping, optional content
(raw markdown text or an already-parsed tree) and outbound links. -/
structure PageInfo where
  metadata : List (List Char × List Char)
  content : Option (Sum (List Char) ASTNode)
  links : List (List Char)

/-- The site AST consumed by `generate_tei_document`: site metadata,
ordered pages keyed by URL, and the link graph. -/
structure SiteAst where
  metadata : List (List Char × List Char)
  pages : List (List Char × PageInfo)
  links : List (List Char × List (List Char))

/-- `TEIGenerator._convert_page_to_tei_div`.  When the page carries
content, the conversion of that content propagates the
`SubElement(None, …)` `TypeError` (and, for string content, any yaml
error from the embedded `MarkdownTeXParser().parse` call). -/
def convertPageToTeiDiv (yaml : YamlOracle) (uuidHex : List Char)
    (url : List Char) (info : PageInfo) : Except (List Char) XElem := do
  let pageId := createPageId uuidHex url
  let head := XElem.mk (qtei "head") []
    (some (dictGetD info.metadata "title".toList url)) []
  let metaDiv : List XElem :=
    if info.metadata ≠ [] then
      [XElem.mk (qtei "div") [("type".toList, "metadata".toList)] none
        ((match dictGet info.metadata "url".toList with
          | some v => [XElem.mk (qtei "p") [("type".toList, "url".toList)]
              (some ("URL: ".toList ++ v)) []]
          | none => []) ++
         (match dictGet info.metadata "language".toList with
          | some v => [XElem.mk (qtei "p") [("type".toList, "language".toList)]
              (some ("Language: ".toList ++ v)) []]
          | none => []) ++
         (match dictGet info.metadata "description".toList with
          | some v =>
            if v ≠ [] then
              [XElem.mk (qtei "p") [("type".toList, "description".toList)]
                (some ("Description: ".toList ++ v)) []]
            else []
          | none => []) ++
         (match dictGet info.metadata "keywords".toList with
          | some v =>
            if v ≠ [] then
              [XElem.mk (qtei "p") [("type".toList, "keywords".toList)]
                (some ("Keywords: ".toList ++ v)) []]
            else []
          | none => []) ++
         (match dictGet info.metadata "scraped_at".toList with
          | some v => [XElem.mk (qtei "p") [("type".toList, "scraped-date".toList)]
              (some ("Scraped: ".toList ++ v)) []]
          | none => []))]
    else []
  let contentDiv : List XElem ←
    match info.content with
    | some (.inl s) => do
      let ast ← parse yaml s
      match ← convertAstToTei ast with
      | some e => pure [e]
      | none => pure []
    | some (.inr ast) => do
      match ← convertAstToTei ast with
      | some e => pure [e]
      | none => pure []
    | none => pure []
  let linksDiv : List XElem :=
    if info.links ≠ [] then
      [XElem.mk (qtei "div") [("type".toList, "links".toList)] none
        [XElem.mk (qtei "head") [] (some "Links".toList) [],
         XElem.mk (qtei "list") [("type".toList, "bulleted".toList)] none
          (info.links.map (fun u =>
            XElem.mk (qtei "item") [] none
              [XElem.mk (qtei "ref") [("target".toList, u)] (some u) []]))]]
    else []
  pure (XElem.mk (qtei "div")
    [("type".toList, "page".toList), (qxml "id", pageId)] none
    ([head] ++ metaDiv ++ contentDiv ++ linksDiv))

/-- `TEIGenerator.generate_text_body`: front matter with a table of
contents, then the page divs. -/
def generateTextBody (yaml : YamlOracle) (uuidHex : List Char)
    (pages : List (List Char × PageInfo)) : Except (List Char) XElem := do
  let tocEntries := pages.map (fun p =>
    XElem.mk (qtei "div") [("type".toList, "toc-entry".toList)] none
      [XElem.mk (qtei "ref")
        [("target".toList, '#' :: createPageId uuidHex p.1)]
        (some (dictGetD p.2.metadata "title".toList p.1)) []])
  let front := XElem.mk (qtei "front") [] none
    [XElem.mk (qtei "div") [("type".toList, "contents".toList)] none
      (XElem.mk (qtei "head") [] (some "Table of Contents".toList) [] :: tocEntries)]
  let pageDivs ← pages.mapM (fun p => convertPageToTeiDiv yaml uuidHex p.1 p.2)
  let mainBody := XElem.mk (qtei "body") [] none pageDivs
  pure (XElem.mk (qtei "text") [] none [front, mainBody])

mutual
/-- Number of elements in a tree (a bound for the depth of
`Element.find`'s traversal). -/
def xelemSize : XElem → Nat
  | .mk _ _ _ ch => 1 + xelemSizeList ch

def xelemSizeList : List XElem → Nat
  | [] => 0
  | e :: es => xelemSize e + xelemSizeList es
end

/-- One sibling pass of `Element.find(".//tag")` followed by an append:
try each element in document order, descending via `rec` before moving
to the next sibling; on success the child is appended to the found
element's children. -/
def findAppendSib (tag : List Char) (c : XElem)
    (rec : List XElem → Option (List XElem)) :
    List XElem → Option (List XElem)
  | [] => none
  | e :: es =>
    if e.tag = tag then
      some ({ e with children := e.children ++ [c] } :: es)
    else
      match rec e.children with
      | some ch => some ({ e with children := ch } :: es)
      | none =>
        match findAppendSib tag c rec es with
        | some es2 => some (e :: es2)
        | none => none

/-- Depth-bounded driver for `findAppendSib` (the fuel bounds the
recursion depth; `sizeOf` of the tree always suffices). -/
def findAppendDepth (tag : List Char) (c : XElem) :
    Nat → List XElem → Option (List XElem)
  | 0, _ => none
  | n + 1, l => findAppendSib tag c (findAppendDepth tag c n) l

/-- `generate_tei_document` before pretty-printing: header, text body,
the `revisionDesc` appended into the first `teiHeader` found by
`tei_root.find(".//teiHeader")` (a missing header would make the
subsequent `SubElement(None, …)` raise), and the stand-off link list. -/
def generateTeiTree (yaml : YamlOracle) (nowIso uuidHex : List Char)
    (site : SiteAst) : Except (List Char) XElem := do
  let header := generateTeiHeader nowIso site.metadata
  let body ← generateTextBody yaml uuidHex site.pages
  let root1 : XElem := { header with children := header.children ++ [body] }
  let revision := XElem.mk (qtei "revisionDesc") [] none
    [XElem.mk (qtei "change")
      [("when".toList, nowIso), ("who".toList, "#web_scraper".toList)]
      (some "Initial TEI XML generation from scraped web content".toList) []]
  let root2 ←
    match findAppendDepth (qtei "teiHeader") revision
        (Nat.succ (xelemSize root1)) root1.children with
    | some ch => pure { root1 with children := ch }
    | none => Except.error subElementNoneError
  let linkBibls := (site.links.map (fun p =>
    p.2.map (fun target =>
      XElem.mk (qtei "bibl") [] none
        [XElem.mk (qtei "ref")
          [("target".toList, '#' :: createPageId uuidHex target)]
          (some ("Link from ".toList ++ p.1 ++ " to ".toList ++ target)) []]))).flatten
  let standoff := XElem.mk (qtei "standOff") [] none
    [XElem.mk (qtei "listBibl") [("type".toList, "links".toList)] none linkBibls]
  pure { root2 with children := root2.children ++ [standoff] }

/-- XML text escaping (`&`, `<`, `>`). -/
def escapeXml (l : List Char) : List Char :=
  (l.map (fun c =>
    if c = '&' then "&amp;".toList
    else if c = '<' then "&lt;".toList
    else if c = '>' then "&gt;".toList
    else [c])).flatten

/-- XML attribute escaping (`&`, `<`, `>`, `"`). -/
def escapeXmlAttr (l : List Char) : List Char :=
  (l.map (fun c =>
    if c = '&' then "&amp;".toList
    else if c = '<' then "&lt;".toList
    else if c = '>' then "&gt;".toList
    else if c = '"' then "&quot;".toList
    else [c])).flatten

/-- `ElementTree.tostring` assigns the prefix `ns0` to the TEI
namespace (the only non-reserved namespace the generator uses) and the
reserved prefix `xml` to the XML namespace. -/
def renderTag (t : List Char) : List Char :=
  if (qn teiNs []).isPrefixOf t then "ns0:".toList ++ t.drop (teiNs.length + 2)
  else if (qn xmlNs []).isPrefixOf t then "xml:".toList ++ t.drop (xmlNs.length + 2)
  else t

def xmlIndent (d : Nat) : List Char := List.replicate (2 * d) ' '

def renderAttrs (attrs : List (List Char × List Char)) : List Char :=
  (attrs.map (fun p =>
    ' ' :: (renderTag p.1 ++ '=' :: '"' :: (escapeXmlAttr p.2 ++ ['"'])))).flatten

mutual
/-- One element of `minidom.toprettyxml(indent="  ")` applied to
`tostring`'s output: each element on its own line at two spaces per
depth, an element whose only payload is text written inline, an empty
element self-closed. -/
def renderElem (d : Nat) : XElem → List Char
  | .mk tag attrs text children =>
    let tg := renderTag tag
    let hd := xmlIndent d ++ '<' :: (tg ++ renderAttrs attrs)
    match text, children with
    | Option.none, [] => hd ++ "/>\n".toList
    | some t, [] => hd ++ '>' :: (escapeXml t ++ "</".toList ++ tg ++ ">\n".toList)
    | Option.none, cs =>
      hd ++ ">\n".toList ++ renderChildren (d + 1) cs ++
      xmlIndent d ++ "</".toList ++ tg ++ ">\n".toList
    | some t, cs =>
      hd ++ ">\n".toList ++ xmlIndent (d + 1) ++ escapeXml t ++ ['\n'] ++
      renderChildren (d + 1) cs ++ xmlIndent d ++ "</".toList ++ tg ++ ">\n".toList

def renderChildren (d : Nat) : List XElem → List Char
  | [] => []
  | e :: es => renderElem d e ++ renderChildren d es
end

/-- The XML declaration and DOCTYPE substituted by
`generate_tei_document` into `toprettyxml`'s first line. -/
def xmlDeclAndDoctype : List Char :=
  ("<?xml version=\"1.0\" encoding=\"UTF-8\"?>\n" ++
   "<!DOCTYPE TEI PUBLIC \"-//TEI P5//DTD//EN\" " ++
   "\"http://www.tei-c.org/release/xml/tei/custom/schema/dtd/tei.dtd\">").toList

/-- Serialisation of the finished tree: the namespace declaration
`xmlns:ns0` is emitted on the root (as `tostring` does for the one
collected namespace), then the pretty-printed element lines. -/
def serializeTeiXml (root : XElem) : List Char :=
  xmlDeclAndDoctype ++ '\n' ::
    renderElem 0 { root with attrs := ("xmlns:ns0".toList, teiNs) :: root.attrs }

/-- `TEIGenerator.generate_tei_document`: the complete canonical XML
byte stream for a site AST, given the clock reading and the uuid
fallback. -/
def generateTeiDocument (yaml : YamlOracle) (nowIso uuidHex : List Char)
    (site : SiteAst) : Except (List Char) (List Char) :=
  (generateTeiTree yaml nowIso uuidHex site).map serializeTeiXml

/-- The `when` attribute of the revision `change` element: first child
of the root (the `teiHeader`), its last child (`revisionDesc`), its
first child (`change`), attribute `when`. -/
def changeWhen (root : XElem) : Option (List Char) := do
  let hdr ← root.children.head?
  let rev ← hdr.children.getLast?
  let ch ← rev.children.head?
  (ch.attrs.find? (fun p => p.1 = "when".toList)).map (·.2)

/-- The empty site AST (no metadata, no pages, no links). -/
def emptySite : SiteAst := ⟨[], [], []⟩

/-! ### Round-trip validator (`generators/html_tei_converter.py`)

The validator drives external tools (`tidy`, `xmllint`, `saxon`); its
own logic is over the *results* of those calls.  The model therefore
abstracts each delegated operation as a function argument: the two
transformation steps as `List Char → ConversionResult` (file path in,
result out) and the structural extraction of `_compare_html_files` by
its observed values (section counts, heading sequences, link lists,
checksums). -/

/-- `ConversionResult` dataclass (the float `conversion_time` is
abstracted to a natural number; none of the validator's decisions read
it). -/
structure ConversionResult where
  success : Bool
  outputFile : List Char
  inputFile : List Char
  conversionTime : Nat
  checksum : List Char

/-- The comparison mapping built by `_compare_html_files`: the three
match flags with their observed values, the two recorded checksums, and
the `error` key (present only when an exception was caught). -/
structure Comparison where
  sectionsMatch : Bool
  origSections : Nat
  finalSections : Nat
  headingsMatch : Bool
  origHeadings : List (List Char)
  finalHeadings : List (List Char)
  linksMatch : Bool
  origLinkCount : Nat
  finalLinkCount : Nat
  checksumOrig : List Char
  checksumFinal : List Char
  errorMsg : Option (List Char)

/-- Python `sorted` on strings (`_xpath_links` sorts each link list
before comparison).  A stable sort over a total order with duplicate
keys being *identical* strings has a unique sorted output, so insertion
sort models it exactly (lexicographic order on code points). -/
def sortedLinks (ls : List (List Char)) : List (List Char) :=
  List.insertionSort (· ≤ ·) ls

/-- `HTMLTEIConverter._compare_html_files` on the error-free path, as a
function of the extracted observations: section counts compared for
equality, heading text sequences compared in document order, link lists
sorted on both sides and compared, checksums recorded verbatim. -/
def compareHtmlFiles (origSections finalSections : Nat)
    (origHeadings finalHeadings : List (List Char))
    (origLinks finalLinks : List (List Char))
    (checksumOrig checksumFinal : List Char) : Comparison where
  sectionsMatch := origSections = finalSections
  origSections := origSections
  finalSections := finalSections
  headingsMatch := origHeadings = finalHeadings
  origHeadings := origHeadings
  finalHeadings := finalHeadings
  linksMatch := sortedLinks origLinks = sortedLinks finalLinks
  origLinkCount := origLinks.length
  finalLinkCount := finalLinks.length
  checksumOrig := checksumOrig
  checksumFinal := checksumFinal
  errorMsg := none

/-- `HTMLTEIConverter._is_isomorphic`: `False` when the comparison
recorded an error, otherwise the conjunction of the three structural
flags (fetched with default `False`, always present here). -/
def isIsomorphic (c : Comparison) : Bool :=
  if c.errorMsg.isSome then false
  else c.sectionsMatch && c.headingsMatch && c.linksMatch

/-- The `results` dictionary of `test_isomorphism`: the step entries
(absent until assigned), the comparison mapping (`none` models the
initial empty dict), the verdict and the optional diff. -/
structure FidelityReport where
  originalFile : List Char
  stepHtmlToTei : Option (List Char)
  stepTeiToHtml : Option (List Char)
  comparisons : Option Comparison
  isomorphic : Bool
  diff : Option (List Char)

/-- `HTMLTEIConverter.test_isomorphism`, abstracted over the two
transformation delegates, the comparison extraction and the diff
generator.  A failed first step returns immediately with only
`html_to_tei: Failed` recorded; a failed second step returns with
`tei_to_html: Failed`; otherwise the comparison runs, the verdict is
computed by `_is_isomorphic`, and a diff is attached only on a negative
verdict. -/
def testIsomorphism (h2t t2h : List Char → ConversionResult)
    (cmp : List Char → List Char → Comparison)
    (diffGen : List Char → List Char → List Char)
    (originalHtml : List Char) : FidelityReport :=
  let r1 := h2t originalHtml
  if !r1.success then
    { originalFile := originalHtml, stepHtmlToTei := some "Failed".toList,
      stepTeiToHtml := none, comparisons := none, isomorphic := false,
      diff := none }
  else
    let r2 := t2h r1.outputFile
    if !r2.success then
      { originalFile := originalHtml, stepHtmlToTei := some "Success".toList,
        stepTeiToHtml := some "Failed".toList, comparisons := none,
        isomorphic := false, diff := none }
    else
      let comparison := cmp originalHtml r2.outputFile
      { originalFile := originalHtml, stepHtmlToTei := some "Success".toList,
        stepTeiToHtml := some "Success".toList, comparisons := some comparison,
        isomorphic := isIsomorphic comparison,
        diff := if !isIsomorphic comparison then
            some (diffGen originalHtml r2.outputFile)
          else none }

/-! ### Supporting lemmas -/

theorem ofValue_value (t : NodeType) : NodeType.ofValue (NodeType.value t) = some t := by
  cases t <;> rfl

theorem searchPat_some {α : Type} {m : List Char → Option α} :
    ∀ {s : List Char} {i : Nat} {a : α}, searchPat m s = some (i, a) →
      i ≤ s.length ∧ m (s.drop i) = some a := by
  intro s
  induction s with
  | nil =>
    intro i a h
    simp only [searchPat, Option.map_eq_some'] at h
    obtain ⟨x, hx, heq⟩ := h
    cases heq
    exact ⟨Nat.le_refl 0, hx⟩
  | cons c cs ih =>
    intro i a h
    simp only [searchPat] at h
    cases hm : m (c :: cs) with
    | some b => rw [hm] at h; cases h; exact ⟨Nat.zero_le _, hm⟩
    | none =>
      rw [hm] at h
      simp only [Option.map_eq_some'] at h
      obtain ⟨⟨i', a'⟩, hx, heq⟩ := h
      cases heq
      obtain ⟨hle, hmm⟩ := ih hx
      exact ⟨by simpa using Nat.succ_le_succ hle, hmm⟩

/-- Splitting a list at a predicate preserves total length. -/
theorem takeWhile_dropWhile_length (p : Char → Bool) (l : List Char) :
    (l.takeWhile p).length + (l.dropWhile p).length = l.length := by
  rw [← List.length_append, List.takeWhile_append_dropWhile]

theorem take_two_length {s : List Char} {a b : Char} (h : s.take 2 = [a, b]) :
    2 ≤ s.length := by
  have h2 := congrArg List.length h
  simp only [List.length_take, List.length_cons, List.length_nil] at h2
  omega

theorem head?_some_length {s : List Char} {a : Char} (h : s.head? = some a) :
    1 ≤ s.length := by
  cases s with
  | nil => simp at h
  | cons _ _ => simp

theorem getElem?_one_length {s : List Char} {a : Char} (h : s[1]? = some a) :
    2 ≤ s.length := by
  rw [List.getElem?_eq_some_iff] at h
  obtain ⟨h1, _⟩ := h
  omega

theorem ne_nil_length {s : List Char} (h : s ≠ []) : 1 ≤ s.length := by
  cases s with
  | nil => exact absurd rfl h
  | cons _ _ => simp

theorem matchImageAt_len {s alt src : List Char} {len : Nat}
    (h : matchImageAt s = some (alt, src, len)) :
    0 < len ∧ len ≤ s.length := by
  simp only [matchImageAt] at h
  split at h
  case isTrue hc =>
    obtain ⟨h1, h2, h3, h4⟩ := hc
    simp only [Option.some_inj, Prod.mk.injEq] at h
    obtain ⟨ha, hs, hl⟩ := h
    have t1 := take_two_length h1
    have t2 := takeWhile_dropWhile_length (fun c => decide (c ≠ ']')) (s.drop 2)
    have t3 := getElem?_one_length h2
    have t4 := takeWhile_dropWhile_length (fun c => decide (c ≠ ')'))
      (((s.drop 2).dropWhile (fun c => decide (c ≠ ']'))).drop 2)
    have t5 := ne_nil_length h4
    have t6 : (s.drop 2).length = s.length - 2 := by simp
    have t7 : (((s.drop 2).dropWhile (fun c => decide (c ≠ ']'))).drop 2).length =
        ((s.drop 2).dropWhile (fun c => decide (c ≠ ']'))).length - 2 := by simp
    subst ha hs hl
    omega
  case isFalse => exact absurd h (by simp)

theorem matchLinkAt_len {s txt href : List Char} {len : Nat}
    (h : matchLinkAt s = some (txt, href, len)) :
    0 < len ∧ len ≤ s.length ∧ txt.length < len := by
  simp only [matchLinkAt] at h
  split at h
  case isTrue hc =>
    obtain ⟨h1, h2, h3, h4, h5⟩ := hc
    simp only [Option.some_inj, Prod.mk.injEq] at h
    obtain ⟨ha, hs, hl⟩ := h
    have t1 := head?_some_length h1
    have t2 := takeWhile_dropWhile_length (fun c => decide (c ≠ ']')) (s.drop 1)
    have t3 := getElem?_one_length h3
    have t4 := takeWhile_dropWhile_length (fun c => decide (c ≠ ')'))
      (((s.drop 1).dropWhile (fun c => decide (c ≠ ']'))).drop 2)
    have t5 := ne_nil_length h5
    have t6 : (s.drop 1).length = s.length - 1 := by simp
    have t7 : (((s.drop 1).dropWhile (fun c => decide (c ≠ ']'))).drop 2).length =
        ((s.drop 1).dropWhile (fun c => decide (c ≠ ']'))).length - 2 := by simp
    subst ha hs hl
    omega
  case isFalse => exact absurd h (by simp)

theorem matchSpanAt_len {o : Char} {s b : List Char} {len : Nat}
    (h : matchSpanAt o s = some (b, len)) :
    0 < len ∧ len ≤ s.length ∧ b.length < len := by
  simp only [matchSpanAt] at h
  split at h
  case isTrue hc =>
    obtain ⟨h1, h2, h3⟩ := hc
    simp only [Option.some_inj, Prod.mk.injEq] at h
    obtain ⟨hb, hl⟩ := h
    have t1 := head?_some_length h1
    have t2 := takeWhile_dropWhile_length (fun c => decide (c ≠ o)) (s.drop 1)
    have t3 := ne_nil_length h3
    have t4 : (s.drop 1).length = s.length - 1 := by simp
    subst hb hl
    omega
  case isFalse => exact absurd h (by simp)

theorem matchStrongAt_len {s b : List Char} {len : Nat}
    (h : matchStrongAt s = some (b, len)) :
    0 < len ∧ len ≤ s.length ∧ b.length < len := by
  simp only [matchStrongAt] at h
  split at h
  case isTrue hc =>
    obtain ⟨h1, h2, h3⟩ := hc
    simp only [Option.some_inj, Prod.mk.injEq] at h
    obtain ⟨hb, hl⟩ := h
    have t1 := take_two_length h1
    have t2 := takeWhile_dropWhile_length (fun c => decide (c ≠ '*')) (s.drop 2)
    have t3 := getElem?_one_length h3
    have t4 : (s.drop 2).length = s.length - 2 := by simp
    subst hb hl
    omega
  case isFalse => exact absurd h (by simp)

theorem prioritySearch_bounds {s : List Char} {i : Nat} {mm : InlineMatch} {len : Nat}
    (h : prioritySearch s = some (i, mm, len)) :
    0 < len ∧ i + len ≤ s.length ∧ mm.innerLen < len := by
  unfold prioritySearch at h
  split at h
  next i0 alt src len0 heq =>
    cases h
    obtain ⟨hle, hm⟩ := searchPat_some heq
    obtain ⟨hl1, hl2⟩ := matchImageAt_len hm
    have hd : (s.drop i).length = s.length - i := by simp
    exact ⟨hl1, by omega, by simp [InlineMatch.innerLen]; omega⟩
  next =>
  split at h
  next i0 txt href len0 heq =>
    cases h
    obtain ⟨hle, hm⟩ := searchPat_some heq
    obtain ⟨hl1, hl2, hl3⟩ := matchLinkAt_len hm
    have hd : (s.drop i).length = s.length - i := by simp
    exact ⟨hl1, by omega, by simp [InlineMatch.innerLen]; omega⟩
  next =>
  split at h
  next i0 c0 len0 heq =>
    cases h
    obtain ⟨hle, hm⟩ := searchPat_some heq
    obtain ⟨hl1, hl2, hl3⟩ := matchSpanAt_len hm
    have hd : (s.drop i).length = s.length - i := by simp
    exact ⟨hl1, by omega, by simp [InlineMatch.innerLen]; omega⟩
  next =>
  split at h
  next i0 m0 len0 heq =>
    cases h
    obtain ⟨hle, hm⟩ := searchPat_some heq
    obtain ⟨hl1, hl2, hl3⟩ := matchSpanAt_len hm
    have hd : (s.drop i).length = s.length - i := by simp
    exact ⟨hl1, by omega, by simp [InlineMatch.innerLen]; omega⟩
  next =>
  split at h
  next i0 b0 len0 heq =>
    cases h
    obtain ⟨hle, hm⟩ := searchPat_some heq
    obtain ⟨hl1, hl2, hl3⟩ := matchStrongAt_len hm
    have hd : (s.drop i).length = s.length - i := by simp
    exact ⟨hl1, by omega, by simp [InlineMatch.innerLen]; omega⟩
  next =>
  split at h
  next i0 b0 len0 heq =>
    cases h
    obtain ⟨hle, hm⟩ := searchPat_some heq
    obtain ⟨hl1, hl2, hl3⟩ := matchSpanAt_len hm
    have hd : (s.drop i).length = s.length - i := by simp
    exact ⟨hl1, by omega, by simp [InlineMatch.innerLen]; omega⟩
  next => exact absurd h (by simp)

/-- Any fuel of at least `s.length` computes the same inline scan: the
loop consumes at least one character per iteration. -/
theorem parseInlineGo_congr :
    ∀ (n m : Nat) (s : List Char), s.length ≤ n → s.length ≤ m →
      parseInlineGo n s = parseInlineGo m s := by
  intro n
  induction n with
  | zero =>
    intro m s hn _
    have hnil : s = [] := List.eq_nil_of_length_eq_zero (Nat.le_zero.mp hn)
    subst hnil
    cases m <;> simp [parseInlineGo]
  | succ n ih =>
    intro m s hn hm
    by_cases hs : s = []
    · subst hs; cases m <;> simp [parseInlineGo]
    · have hpos : 1 ≤ s.length := ne_nil_length hs
      obtain ⟨m', rfl⟩ : ∃ m', m = m' + 1 := ⟨m - 1, by omega⟩
      simp only [parseInlineGo, if_neg hs]
      cases hps : prioritySearch s with
      | none => rfl
      | some t =>
        obtain ⟨i, mm, len⟩ := t
        obtain ⟨hl1, hl2, hl3⟩ := prioritySearch_bounds hps
        have hdl : (s.drop (i + len)).length = s.length - (i + len) := by simp
        have hrec := ih m' (s.drop (i + len)) (by omega) (by omega)
        cases mm with
        | image alt src => dsimp only; rw [hrec]
        | link txt href =>
          have hinner : txt.length < len := by simpa [InlineMatch.innerLen] using hl3
          dsimp only
          rw [hrec, ih m' txt (by omega) (by omega)]
        | code c => dsimp only; rw [hrec]
        | math m0 => dsimp only; rw [hrec]
        | strong b =>
          have hinner : b.length < len := by simpa [InlineMatch.innerLen] using hl3
          dsimp only
          rw [hrec, ih m' b (by omega) (by omega)]
        | emph b =>
          have hinner : b.length < len := by simpa [InlineMatch.innerLen] using hl3
          dsimp only
          rw [hrec, ih m' b (by omega) (by omega)]

theorem parseInlineGo_eq_parseInline {fuel : Nat} {s : List Char}
    (h : s.length ≤ fuel) : parseInlineGo fuel s = parseInline s :=
  parseInlineGo_congr fuel s.length s h (Nat.le_refl _)

/-! ### The claim-side selection rule for the inline scanner

The specification describes the scanner as choosing, among all six
candidate matches, the one with the **earliest start offset**, breaking
ties at equal offsets by candidate priority.  `earliestSelect` formalises
that rule (candidates listed in priority order; a later candidate only
wins with a strictly smaller offset). -/

mutual
theorem dictToAst_nodeToDict : (t : ASTNode) → dictToAst (nodeToDict t) = some t
  | .mk ty c attrs pos => by
    have hv := ofValue_value ty
    cases c with
    | none =>
      simp only [nodeToDict, dictToAst, hv, Option.bind_eq_bind, Option.some_bind]
      split <;> simp_all
    | str s =>
      simp only [nodeToDict, dictToAst, hv, Option.bind_eq_bind, Option.some_bind]
      split <;> simp_all
    | list l =>
      have hl := dictToAstList_nodeToDictList l
      simp only [nodeToDict, dictToAst, hv, hl, Option.bind_eq_bind, Option.some_bind]
      split <;> simp_all
    | node n =>
      have hn := dictToAst_nodeToDict n
      simp only [nodeToDict, dictToAst, hv, hn, Option.bind_eq_bind, Option.some_bind]
      split <;> simp_all

theorem dictToAstList_nodeToDictList :
    (l : List ASTNode) → dictToAstList (nodeToDictList l) = some l
  | [] => rfl
  | a :: as => by
    have h1 := dictToAst_nodeToDict a
    have h2 := dictToAstList_nodeToDictList as
    simp [nodeToDictList, dictToAstList, h1, h2]
end

theorem prioritySearch_of_no_candidates {s : List Char}
    (h : inlineCandidates s = []) : prioritySearch s = none := by
  unfold inlineCandidates at h
  cases e1 : searchPat matchImageAt s with
  | some p => rw [e1] at h; simp at h
  | none =>
  cases e2 : searchPat matchLinkAt s with
  | some p => rw [e2] at h; simp at h
  | none =>
  cases e3 : searchPat (matchSpanAt '`') s with
  | some p => rw [e3] at h; simp at h
  | none =>
  cases e4 : searchPat (matchSpanAt '$') s with
  | some p => rw [e4] at h; simp at h
  | none =>
  cases e5 : searchPat matchStrongAt s with
  | some p => rw [e5] at h; simp at h
  | none =>
  cases e6 : searchPat (matchSpanAt '*') s with
  | some p => rw [e6] at h; simp at h
  | none =>
    unfold prioritySearch
    rw [e1, e2, e3, e4, e5, e6]

/-! ### String/segmenter helper lemmas -/

theorem splitLines_ne_nil (t : List Char) : splitLines t ≠ [] := by
  cases t with
  | nil => simp [splitLines]
  | cons c rest =>
    simp only [splitLines]
    split
    · simp
    · cases splitLines rest <;> simp

theorem join_splitLines (t : List Char) :
    ((splitLines t).map (fun l => l ++ ['\n'])).flatten = t ++ ['\n'] := by
  induction t with
  | nil => simp [splitLines]
  | cons c rest ih =>
    simp only [splitLines]
    by_cases hc : c = '\n'
    · subst hc
      simp [ih]
    · simp only [if_neg hc]
      cases hsp : splitLines rest with
      | nil => exact absurd hsp (splitLines_ne_nil rest)
      | cons l ls =>
        rw [hsp] at ih
        simp only [List.map_cons, List.flatten_cons] at ih ⊢
        exact congrArg (List.cons c) ih

theorem splitLines_structure (t : List Char) :
    ∃ m ms, splitLines t = m :: ms ∧ m <+: t ∧ ∀ l ∈ ms, l <:+: t := by
  induction t with
  | nil => exact ⟨[], [], rfl, List.prefix_refl [], by simp⟩
  | cons c rest ih =>
    obtain ⟨m, ms, hsp, hpre, hms⟩ := ih
    by_cases hc : c = '\n'
    · refine ⟨[], splitLines rest, by simp [splitLines, hc], by simp, ?_⟩
      intro l hl
      rw [hsp] at hl
      rcases List.mem_cons.mp hl with h | h
      · exact h ▸ (hpre.isInfix.trans (List.infix_cons (List.infix_refl rest)))
      · exact (hms l h).trans (List.infix_cons (List.infix_refl rest))
    · refine ⟨c :: m, ms, by simp [splitLines, hc, hsp], by simpa using hpre, ?_⟩
      intro l hl
      exact (hms l hl).trans (List.infix_cons (List.infix_refl rest))

theorem splitLines_mem_middle {t l : List Char} (hl : l ∈ splitLines t) :
    l <:+: t := by
  obtain ⟨m, ms, hsp, hpre, hms⟩ := splitLines_structure t
  rw [hsp] at hl
  rcases List.mem_cons.mp hl with h | h
  · exact h ▸ hpre.isInfix
  · exact hms l h

theorem hasMathMarker_cons {c : Char} {l : List Char}
    (h : hasMathMarker (c :: l) = false) : hasMathMarker l = false := by
  cases l with
  | nil => rfl
  | cons d rest =>
    simp only [hasMathMarker, Bool.or_eq_false_iff] at h
    exact h.2

theorem hasMathMarker_append_left {a l : List Char}
    (h : hasMathMarker (a ++ l) = false) : hasMathMarker l = false := by
  induction a with
  | nil => exact h
  | cons c a ih => exact ih (hasMathMarker_cons h)

theorem hasMathMarker_append_right :
    ∀ {l b : List Char}, hasMathMarker (l ++ b) = false → hasMathMarker l = false
  | [], _, _ => rfl
  | [_], _, _ => rfl
  | c :: d :: l, b, h => by
    simp only [List.cons_append, hasMathMarker, Bool.or_eq_false_iff] at h ⊢
    exact ⟨h.1, hasMathMarker_append_right (l := d :: l) (by
      simpa [hasMathMarker] using h.2)⟩

theorem hasMathMarker_middle {l t : List Char} (hinf : l <:+: t)
    (h : hasMathMarker t = false) : hasMathMarker l = false := by
  obtain ⟨a, b, hab⟩ := hinf
  subst hab
  exact hasMathMarker_append_right (hasMathMarker_append_left (l := l ++ b) (by simpa using h))

theorem dropWhile_head_false {p : Char → Bool} :
    ∀ {l : List Char} {c : Char}, (l.dropWhile p).head? = some c → p c = false := by
  intro l
  induction l with
  | nil => intro c h; simp at h
  | cons d rest ih =>
    intro c h
    by_cases hd : p d
    · rw [List.dropWhile_cons_of_pos hd] at h
      exact ih h
    · rw [List.dropWhile_cons_of_neg hd] at h
      simp only [List.head?_cons, Option.some_inj] at h
      subst h
      exact Bool.eq_false_iff.mpr hd

theorem dropWhile_eq_self {p : Char → Bool} {l : List Char}
    (h : ∀ c, l.head? = some c → p c = false) : l.dropWhile p = l := by
  cases l with
  | nil => rfl
  | cons c rest =>
    have := h c (by simp)
    rw [List.dropWhile_cons_of_neg (by simp [this])]

theorem dropWhile_getLast? {p : Char → Bool} :
    ∀ {l : List Char}, l.dropWhile p ≠ [] → (l.dropWhile p).getLast? = l.getLast? := by
  intro l
  induction l with
  | nil => intro h; simp at h
  | cons c rest ih =>
    intro h
    by_cases hc : p c
    · rw [List.dropWhile_cons_of_pos hc] at h ⊢
      have hrest : rest ≠ [] := by
        intro he
        subst he
        simp at h
      rw [ih h]
      cases rest with
      | nil => exact absurd rfl hrest
      | cons d ds => rw [List.getLast?_cons_cons]
    · rw [List.dropWhile_cons_of_neg hc]

theorem pyStrip_head {l : List Char} {c : Char}
    (h : (pyStrip l).head? = some c) : pyIsSpace c = false := by
  unfold pyStrip at h
  rw [List.head?_reverse] at h
  have hne : (l.dropWhile pyIsSpace).reverse.dropWhile pyIsSpace ≠ [] := by
    intro he
    rw [he] at h
    simp at h
  rw [dropWhile_getLast? hne, List.getLast?_reverse] at h
  exact dropWhile_head_false h

theorem pyStrip_getLast {l : List Char} {c : Char}
    (h : (pyStrip l).getLast? = some c) : pyIsSpace c = false := by
  unfold pyStrip at h
  rw [List.getLast?_reverse] at h
  exact dropWhile_head_false h

theorem pyStrip_idem (l : List Char) : pyStrip (pyStrip l) = pyStrip l := by
  have h1 : (pyStrip l).dropWhile pyIsSpace = pyStrip l :=
    dropWhile_eq_self (fun c hc => pyStrip_head hc)
  have h2 : (pyStrip l).reverse.dropWhile pyIsSpace = (pyStrip l).reverse :=
    dropWhile_eq_self (fun c hc => by
      rw [List.head?_reverse] at hc
      exact pyStrip_getLast hc)
  show ((((pyStrip l).dropWhile pyIsSpace).reverse).dropWhile pyIsSpace).reverse = pyStrip l
  rw [h1, h2, List.reverse_reverse]

theorem pyStrip_decomp (l : List Char) :
    ∃ a b, l = a ++ pyStrip l ++ b := by
  refine ⟨l.takeWhile pyIsSpace,
    ((l.dropWhile pyIsSpace).reverse.takeWhile pyIsSpace).reverse, ?_⟩
  have h2 : (l.dropWhile pyIsSpace).reverse.takeWhile pyIsSpace ++
      (l.dropWhile pyIsSpace).reverse.dropWhile pyIsSpace =
      (l.dropWhile pyIsSpace).reverse :=
    List.takeWhile_append_dropWhile (p := pyIsSpace) (l := (l.dropWhile pyIsSpace).reverse)
  calc l = l.takeWhile pyIsSpace ++ l.dropWhile pyIsSpace :=
        (List.takeWhile_append_dropWhile (p := pyIsSpace) (l := l)).symm
    _ = l.takeWhile pyIsSpace ++ ((l.dropWhile pyIsSpace).reverse).reverse := by
        rw [List.reverse_reverse]
    _ = l.takeWhile pyIsSpace ++
        ((l.dropWhile pyIsSpace).reverse.takeWhile pyIsSpace ++
         (l.dropWhile pyIsSpace).reverse.dropWhile pyIsSpace).reverse := by rw [h2]
    _ = l.takeWhile pyIsSpace ++ (pyStrip l ++
         ((l.dropWhile pyIsSpace).reverse.takeWhile pyIsSpace).reverse) := by
        rw [List.reverse_append]; rfl
    _ = l.takeWhile pyIsSpace ++ pyStrip l ++
         ((l.dropWhile pyIsSpace).reverse.takeWhile pyIsSpace).reverse := by
        rw [List.append_assoc]

theorem pyStrip_middle (l : List Char) : pyStrip l <:+: l := by
  obtain ⟨a, b, hab⟩ := pyStrip_decomp l
  exact ⟨a, b, hab.symm⟩

theorem pyStrip_append_newline (l : List Char) :
    pyStrip (l ++ ['\n']) = pyStrip l := by
  unfold pyStrip
  rw [List.dropWhile_append]
  by_cases hnil : l.dropWhile pyIsSpace = []
  · rw [hnil]
    rfl
  · rw [if_neg (by simpa [List.isEmpty_iff] using hnil), List.reverse_append]
    rw [show (['\n'] : List Char).reverse = ['\n'] from rfl, List.singleton_append]
    rw [List.dropWhile_cons_of_pos (by simp [pyIsSpace])]

theorem splitLines_head_eq (t : List Char) :
    (splitLines t).headD [] = t.takeWhile (· ≠ '\n') := by
  induction t with
  | nil => rfl
  | cons c rest ih =>
    simp only [splitLines]
    by_cases hc : c = '\n'
    · subst hc
      simp [List.takeWhile_cons]
    · rw [if_neg hc]
      cases hsp : splitLines rest with
      | nil => exact absurd hsp (splitLines_ne_nil rest)
      | cons m ms =>
        rw [hsp] at ih
        simp only [List.headD_cons] at ih ⊢
        rw [List.takeWhile_cons, if_pos (by simpa using hc), ih]

theorem take_three_decomp {l : List Char} {a b c : Char}
    (h : l.take 3 = [a, b, c]) : ∃ t, l = a :: b :: c :: t := by
  cases l with
  | nil => simp at h
  | cons x l1 =>
    cases l1 with
    | nil => simp [List.take] at h
    | cons y l2 =>
      cases l2 with
      | nil => simp [List.take] at h
      | cons z t =>
        simp only [List.take, List.cons.injEq] at h
        obtain ⟨h1, h2, h3, _⟩ := h
        exact ⟨t, by rw [h1, h2, h3]⟩

theorem pyStrip_take3_backticks {l : List Char}
    (h : l.take 3 = ['`', '`', '`']) :
    (pyStrip l).take 3 = ['`', '`', '`'] ∧ pyStrip l ≠ [] := by
  obtain ⟨t, rfl⟩ := take_three_decomp h
  have hfront : ('`' :: '`' :: '`' :: t).dropWhile pyIsSpace =
      '`' :: '`' :: '`' :: t := by
    rw [List.dropWhile_cons_of_neg (by simp [pyIsSpace])]
  unfold pyStrip
  rw [hfront]
  have hrev : ('`' :: '`' :: '`' :: t).reverse = t.reverse ++ ['`', '`', '`'] := by
    simp
  rw [hrev, List.dropWhile_append]
  by_cases hnil : t.reverse.dropWhile pyIsSpace = []
  · rw [hnil]
    simp [List.dropWhile_cons_of_neg (show ¬(pyIsSpace '`' = true) by simp [pyIsSpace])]
  · rw [if_neg (by simpa [List.isEmpty_iff] using hnil), List.reverse_append]
    constructor
    · rfl
    · simp

theorem isPrefixOf_iff_take {l s : List Char} :
    l.isPrefixOf s = true ↔ s.take l.length = l := by
  rw [List.isPrefixOf_iff_prefix, List.prefix_iff_eq_take]
  exact ⟨fun h => h.symm, fun h => h.symm⟩

theorem isFenceLine_of_take3 {l : List Char}
    (h : l.take 3 = ['`', '`', '`']) : isFenceLine l = true := by
  obtain ⟨ht, _⟩ := pyStrip_take3_backticks h
  unfold isFenceLine
  rw [isPrefixOf_iff_take]
  exact ht

theorem matchMetadata_of_backticks {text : List Char}
    (h : text.take 3 = ['`', '`', '`']) : matchMetadata text = none := by
  unfold matchMetadata
  rw [if_neg]
  intro hpre
  rw [isPrefixOf_iff_take] at hpre
  rw [show ("---".toList).length = 3 from rfl] at hpre
  rw [h] at hpre
  simp at hpre

theorem splitLoop_inFence :
    ∀ (ls : List (List Char)) (blocks : List (List Char)) (cur : List Char),
      (∀ l ∈ ls, isFenceLine l = false ∧ hasMathMarker l = false) →
      splitLoop ls blocks cur true false =
        appendStripped blocks (cur ++ (ls.map (fun l => l ++ ['\n'])).flatten) := by
  intro ls
  induction ls with
  | nil =>
    intro blocks cur _
    simp [splitLoop]
  | cons l rest ih =>
    intro blocks cur h
    have hl := h l (List.mem_cons_self l rest)
    have hrest := fun x hx => h x (List.mem_cons_of_mem l hx)
    simp only [splitLoop, hl.1, hl.2, Bool.false_and, Bool.and_false, Bool.not_true,
      Bool.false_eq_true, if_false]
    rw [ih blocks (cur ++ l ++ ['\n']) hrest]
    simp [List.append_assoc]

theorem splitIntoBlocks_unterminated_fence {text : List Char}
    (hopen : text.take 3 = ['`', '`', '`'])
    (hnofence : ∀ l ∈ (splitLines text).tail, isFenceLine l = false)
    (hnomath : hasMathMarker text = false) :
    splitIntoBlocks text = [pyStrip text] := by
  have hperline : ∀ l ∈ splitLines text, hasMathMarker l = false := fun l hl =>
    hasMathMarker_middle (splitLines_mem_middle hl) hnomath
  cases hsp : splitLines text with
  | nil => exact absurd hsp (splitLines_ne_nil text)
  | cons L0 rest =>
    have hL0take : L0.take 3 = ['`', '`', '`'] := by
      have hhead : L0 = text.takeWhile (· ≠ '\n') := by
        have := splitLines_head_eq text
        rw [hsp] at this
        simpa using this
      obtain ⟨t, rfl⟩ := take_three_decomp hopen
      rw [hhead]
      rw [List.takeWhile_cons, if_pos (by simp), List.takeWhile_cons, if_pos (by simp),
        List.takeWhile_cons, if_pos (by simp)]
      rfl
    have hL0 : isFenceLine L0 = true := isFenceLine_of_take3 hL0take
    have hrestcond : ∀ l ∈ rest, isFenceLine l = false ∧ hasMathMarker l = false := by
      intro l hl
      refine ⟨?_, hperline l (hsp ▸ List.mem_cons_of_mem L0 hl)⟩
      have := hnofence l (by rw [hsp]; exact hl)
      exact this
    unfold splitIntoBlocks
    rw [hsp]
    simp only [splitLoop, hL0, Bool.not_false, if_true]
    rw [splitLoop_inFence rest (appendStripped [] []) (L0 ++ ['\n']) hrestcond]
    have happend : appendStripped [] [] = [] := by simp [appendStripped, pyStrip]
    rw [happend]
    have hjoin : (L0 ++ ['\n']) ++ (rest.map (fun l => l ++ ['\n'])).flatten =
        text ++ ['\n'] := by
      have := join_splitLines text
      rw [hsp] at this
      simpa using this
    rw [hjoin]
    have hstrip : pyStrip (text ++ ['\n']) = pyStrip text :=
      pyStrip_append_newline text
    obtain ⟨_, hne⟩ := pyStrip_take3_backticks hopen
    simp only [appendStripped, hstrip]
    rw [if_pos (by simpa using hne)]
    simp only [List.nil_append, List.filter]
    rw [pyStrip_idem]
    simp [hne]

theorem parseBlock_fence {block : List Char}
    (hb3 : block.take 3 = ['`', '`', '`'])
    (hm : hasMathMarker block = false)
    (hs : pyStrip block = block) :
    parseBlock block = some (ASTNode.mk .code_block
      (.str (joinLines (((splitLines block).drop 1).dropLast)))
      [("language".toList, .s (pyStrip (((splitLines block).headD []).drop 3)))]
      []) := by
  have hne : block ≠ [] := by
    obtain ⟨t, rfl⟩ := take_three_decomp hb3
    simp
  have hfence : isFenceLine block = true := isFenceLine_of_take3 hb3
  unfold parseBlock
  rw [hs, if_neg hne, hm]
  simp only [Bool.false_eq_true, if_false, hfence, if_true]
  unfold parseCodeBlock
  rw [hs]
  have hlines : ¬(splitLines block).isEmpty = true := by
    simpa [List.isEmpty_iff] using splitLines_ne_nil block
  have hhead : "```".toList.isPrefixOf ((splitLines block).headD []) = true := by
    rw [isPrefixOf_iff_take, splitLines_head_eq]
    obtain ⟨t, rfl⟩ := take_three_decomp hb3
    rw [List.takeWhile_cons, if_pos (by simp), List.takeWhile_cons, if_pos (by simp),
      List.takeWhile_cons, if_pos (by simp)]
    rfl
  simp only [hlines, hhead, Bool.not_false, Bool.and_self, if_true,
    Bool.true_and, Bool.not_true]

theorem appendStripped_mem {blocks : List (List Char)} {cur b : List Char}
    (h : b ∈ appendStripped blocks cur) : b ∈ blocks ∨ b = pyStrip cur := by
  unfold appendStripped at h
  split at h
  · rcases List.mem_append.mp h with h1 | h1
    · exact Or.inl h1
    · exact Or.inr (by simpa using h1)
  · exact Or.inl h

theorem appendStripped_inv {blocks : List (List Char)} {cur : List Char}
    (h : ∀ b ∈ blocks, pyStrip b = b) :
    ∀ b ∈ appendStripped blocks cur, pyStrip b = b := by
  intro b hb
  rcases appendStripped_mem hb with h1 | h1
  · exact h b h1
  · rw [h1]; exact pyStrip_idem cur

theorem snoc_strip_inv {blocks : List (List Char)} {x : List Char}
    (h : ∀ b ∈ blocks, pyStrip b = b) :
    ∀ b ∈ blocks ++ [pyStrip x], pyStrip b = b := by
  intro b hb
  rcases List.mem_append.mp hb with h1 | h1
  · exact h b h1
  · rw [List.mem_singleton.mp h1]; exact pyStrip_idem x

theorem splitLoop_stripped :
    ∀ (ls blocks : List (List Char)) (cur : List Char) (ic im : Bool),
      (∀ b ∈ blocks, pyStrip b = b) →
      ∀ b ∈ splitLoop ls blocks cur ic im, pyStrip b = b := by
  intro ls
  induction ls with
  | nil =>
    intro blocks cur ic im hinv b hb
    simp only [splitLoop] at hb
    exact appendStripped_inv hinv b hb
  | cons l rest ih =>
    intro blocks cur ic im hinv b hb
    simp only [splitLoop] at hb
    split at hb
    · split at hb
      · exact ih _ _ _ _ (appendStripped_inv hinv) b hb
      · exact ih _ _ _ _ (snoc_strip_inv hinv) b hb
    · split at hb
      · exact ih _ _ _ _ (appendStripped_inv hinv) b hb
      · split at hb
        · exact ih _ _ _ _ (snoc_strip_inv hinv) b hb
        · split at hb
          · exact ih _ _ _ _ (appendStripped_inv hinv) b hb
          · exact ih _ _ _ _ hinv b hb

/-! ### Claim theorems -/

/-- **C1 — counterexample.**  The claim predicts that on input
`"*a* `b`"` the scanner first emits the node of the earliest-starting
candidate — the emphasis span `*a*` at offset 0 (the inline-code span
starts only at offset 4).  The scanner actually emits a plain text node
`"*a* "` first, because `_parse_inline` commits to the first pattern in
priority order (`inline_code` before `emphasis`) that matches *anywhere*
in the remaining text, regardless of offset. -/
theorem c1_counterexample :
    claimNextNode "*a* `b`".toList = some (inlineNodeOf (.emph "a".toList)) ∧
    (parseInline "*a* `b`".toList).head? = some (textNode "*a* ".toList) ∧
    some (textNode "*a* ".toList) ≠ some (inlineNodeOf (.emph "a".toList)) := by
  refine ⟨rfl, rfl, ?_⟩
  simp [textNode, inlineNodeOf, emphNode]

/-- **C1 (amended).**  At each scanning step the node emitted next
corresponds to the leftmost match of the *highest-priority candidate
pattern that matches anywhere in the remaining text* (priority order:
image, link, inline-code, inline-math, strong, emphasis) — not the
candidate with the earliest start offset; any text preceding the selected
match is emitted as a text node. -/
theorem c1_priority_first_scan (s : List Char) (hs : s ≠ [])
    (i : Nat) (m : InlineMatch) (len : Nat)
    (hsel : prioritySearch s = some (i, m, len)) :
    parseInline s =
      (if 0 < i then [textNode (s.take i)] else []) ++
      inlineNodeOf m :: parseInline (s.drop (i + len)) := by
  obtain ⟨hl1, hl2, hl3⟩ := prioritySearch_bounds hsel
  have hpos : 1 ≤ s.length := ne_nil_length hs
  obtain ⟨k, hk⟩ : ∃ k, s.length = k + 1 := ⟨s.length - 1, by omega⟩
  have hL : parseInline s = parseInlineGo (k + 1) s := by rw [parseInline, hk]
  rw [hL]
  simp only [parseInlineGo, if_neg hs, hsel]
  have hrest : (s.drop (i + len)).length ≤ k := by simp; omega
  cases m with
  | image alt src =>
    dsimp only
    rw [parseInlineGo_eq_parseInline hrest]
    rfl
  | link txt href =>
    have hin : txt.length ≤ k := by simp [InlineMatch.innerLen] at hl3; omega
    dsimp only
    rw [parseInlineGo_eq_parseInline hrest, parseInlineGo_eq_parseInline hin]
    rfl
  | code c =>
    dsimp only
    rw [parseInlineGo_eq_parseInline hrest]
    rfl
  | math m0 =>
    dsimp only
    rw [parseInlineGo_eq_parseInline hrest]
    rfl
  | strong b =>
    have hin : b.length ≤ k := by simp [InlineMatch.innerLen] at hl3; omega
    dsimp only
    rw [parseInlineGo_eq_parseInline hrest, parseInlineGo_eq_parseInline hin]
    rfl
  | emph b =>
    have hin : b.length ≤ k := by simp [InlineMatch.innerLen] at hl3; omega
    dsimp only
    rw [parseInlineGo_eq_parseInline hrest, parseInlineGo_eq_parseInline hin]
    rfl

/-- Witness for `c1_priority_first_scan` at the concrete input `"x*a*"`,
whose selected candidate is the emphasis span at offset 1. -/
theorem c1_priority_first_scan_witness :
    parseInline "x*a*".toList =
      (if 0 < 1 then [textNode ("x*a*".toList.take 1)] else []) ++
      inlineNodeOf (.emph "a".toList) :: parseInline ("x*a*".toList.drop (1 + 3)) :=
  c1_priority_first_scan "x*a*".toList (by decide) 1 (.emph "a".toList) 3 rfl

/-- **C8.**  If none of the six inline candidate patterns matches
anywhere in the input, the scanner returns exactly one text node whose
content equals the input — and the empty input yields the empty sequence
(never an absent result). -/
theorem c8_no_match_text_node (s : List Char)
    (h : inlineCandidates s = []) :
    parseInline s = if s = [] then [] else [textNode s] := by
  have hp := prioritySearch_of_no_candidates h
  cases s with
  | nil => rfl
  | cons c cs =>
    rw [parseInline]
    simp only [List.length_cons, parseInlineGo, hp]

/-- Witness for `c8_no_match_text_node` at `"hello"` (no markers). -/
theorem c8_no_match_text_node_witness :
    parseInline "hello".toList =
      if "hello".toList = [] then [] else [textNode "hello".toList] :=
  c8_no_match_text_node "hello".toList rfl

/-- **C6.**  Converting any tree to its persisted record form and back
reproduces an equal tree: `dict_to_ast (ast_to_dict t) = t` for every
node kind, including nested lists and links-within-emphasis. -/
theorem c6_record_roundtrip (t : ASTNode) : dictToAst (nodeToDict t) = some t :=
  dictToAst_nodeToDict t

/-- A yaml library in which `safe_load` raises a scanner error on the
malformed document `"title: [oops"` (an unclosed flow sequence), as
PyYAML does; other inputs parse to an empty mapping.  `_extract_metadata`
catches only `ImportError`, so this error propagates out of `parse`. -/
def yamlStubRaises : YamlOracle :=
  some (fun g =>
    if g = "title: [oops".toList then .error "yaml.scanner.ScannerError".toList
    else .ok [])

/-- **C3 — counterexample.**  With the yaml library available and a
front-matter block that is malformed YAML, `parse` aborts with the
propagated yaml error instead of returning a Document: only
`ImportError` is caught by `_extract_metadata`. -/
theorem c3_counterexample :
    (parse yamlStubRaises "---\ntitle: [oops\n---\nBody".toList).isOk = false :=
  rfl

/-- **C3 (amended).**  Front-matter extraction never aborts the parse
only in the `ImportError` fallback (yaml library unavailable): there the
key-value fallback parser is total and `parse` always returns a complete
Document (with metadata possibly degraded to an empty mapping).  When
yaml is available, a YAML parse error propagates and aborts the whole
parse (see the counterexample). -/
theorem c3_fallback_never_aborts (text : List Char) :
    ∃ children attrs, parse Option.none text =
      .ok (ASTNode.mk .document (.list children) attrs []) := by
  unfold parse extractMetadata
  cases hm : matchMetadata text with
  | none => exact ⟨_, _, rfl⟩
  | some g => exact ⟨_, _, rfl⟩

/-- **C4 — counterexample.**  On the unterminated fenced block
`"```\nhello"`, parsing yields one `code_block` node whose content is
**empty** — the final input line `"hello"` is consumed as if it were the
closing fence by `lines[1:-1]` — rather than a node spanning to the end
of input. -/
theorem c4_counterexample :
    parse Option.none "```\nhello".toList =
      .ok (ASTNode.mk .document
        (.list [ASTNode.mk .code_block (.str [])
          [("language".toList, .s [])] []]) [] []) ∧
    ([] : List Char) ≠ "hello".toList :=
  ⟨rfl, by decide⟩

/-- **C4 (amended).**  An input that opens a fenced code block (no later
fence line, no `$$` marker) and hits end of input yields exactly one
`code_block` node and no error; but its content is the join of the lines
strictly **between** the fence-open line and the final line of the
stripped input — the final line is dropped as if it were the closing
fence — not everything to the end of input. -/
theorem c4_unterminated_fence (text : List Char)
    (hopen : text.take 3 = ['`', '`', '`'])
    (hnofence : ∀ l ∈ (splitLines text).tail, isFenceLine l = false)
    (hnomath : hasMathMarker text = false) :
    parse Option.none text =
      .ok (ASTNode.mk .document
        (.list [ASTNode.mk .code_block
          (.str (joinLines (((splitLines (pyStrip text)).drop 1).dropLast)))
          [("language".toList,
            .s (pyStrip (((splitLines (pyStrip text)).headD []).drop 3)))] []])
        [] []) := by
  have hblocks := splitIntoBlocks_unterminated_fence hopen hnofence hnomath
  have hmeta := matchMetadata_of_backticks hopen
  obtain ⟨hb3, hneb⟩ := pyStrip_take3_backticks hopen
  have hmblock : hasMathMarker (pyStrip text) = false :=
    hasMathMarker_middle (pyStrip_middle text) hnomath
  have hpb := parseBlock_fence hb3 hmblock (pyStrip_idem text)
  unfold parse extractMetadata
  rw [hmeta]
  show Except.ok (ASTNode.mk .document
    (.list ((splitIntoBlocks text).filterMap parseBlock)) _ _) = _
  rw [hblocks]
  simp only [List.filterMap, hpb]
  rfl

/-- Witness for `c4_unterminated_fence` at the concrete input
`"```\nhello"`. -/
theorem c4_unterminated_fence_witness :
    parse Option.none "```\nhello".toList =
      .ok (ASTNode.mk .document
        (.list [ASTNode.mk .code_block
          (.str (joinLines (((splitLines (pyStrip "```\nhello".toList)).drop 1).dropLast)))
          [("language".toList,
            .s (pyStrip (((splitLines (pyStrip "```\nhello".toList)).headD []).drop 3)))] []])
        [] []) :=
  c4_unterminated_fence "```\nhello".toList (by decide) (by decide) (by decide)

/-- **C10.**  Every segment emitted by the block segmenter is non-empty
after whitespace stripping and carries no leading or trailing whitespace
(stripping it is the identity): the segment list never contains a blank
or whitespace-only segment. -/
theorem c10_segments_stripped (text b : List Char)
    (hb : b ∈ splitIntoBlocks text) : pyStrip b = b ∧ pyStrip b ≠ [] := by
  unfold splitIntoBlocks at hb
  rw [List.mem_filter] at hb
  obtain ⟨hmem, hpred⟩ := hb
  exact ⟨splitLoop_stripped _ _ _ _ _ (by simp) b hmem, by simpa using hpred⟩

/-- Witness for `c10_segments_stripped`: the single segment of the
two-block input `"  a\n\nb  "`. -/
theorem c10_segments_stripped_witness :
    "a".toList ∈ splitIntoBlocks "  a\n\nb  ".toList ∧
    (pyStrip "a".toList = "a".toList ∧ pyStrip "a".toList ≠ []) :=
  ⟨by decide, c10_segments_stripped "  a\n\nb  ".toList "a".toList (by decide)⟩

set_option maxRecDepth 20000 in
/-- **C2 — counterexample.**  Two serialisation runs of the same (empty)
site at clock readings one second apart produce different bytes: the
outputs differ at byte 1243, the seconds digit of the
`datetime.now().isoformat()` timestamp embedded as the `when` attribute
of the revision `change` element.  `serialize(parse(text))` is therefore
not byte-identical across runs. -/
theorem c2_counterexample :
    generateTeiDocument Option.none "2024-01-01T00:00:00".toList "ab".toList emptySite ≠
    generateTeiDocument Option.none "2024-01-01T00:00:01".toList "ab".toList emptySite := by
  intro h
  have e1 : ((generateTeiDocument Option.none "2024-01-01T00:00:00".toList
      "ab".toList emptySite).toOption.getD [])[1243]? = some '0' := by decide
  have e2 : ((generateTeiDocument Option.none "2024-01-01T00:00:01".toList
      "ab".toList emptySite).toOption.getD [])[1243]? = some '1' := by decide
  rw [h, e2] at e1
  exact absurd e1 (by decide)

/-- **C2 (amended).**  Serialisation is deterministic only for a fixed
clock reading: every successfully generated TEI tree embeds the clock
reading verbatim as the `when` attribute of the revision `change`
element (and its date part in the header), so two runs at different
timestamps produce different bytes, while the output is a pure function
of the Document, the clock reading and the uuid fallback. -/
theorem c2_clock_flows_into_output (yaml : YamlOracle)
    (nowIso uuidHex : List Char) (site : SiteAst) (root : XElem)
    (h : generateTeiTree yaml nowIso uuidHex site = .ok root) :
    changeWhen root = some nowIso := by
  unfold generateTeiTree at h
  cases hb : generateTextBody yaml uuidHex site.pages with
  | error e =>
    rw [hb] at h
    exact Except.noConfusion
      (show (Except.error e : Except (List Char) XElem) = .ok root from h)
  | ok body =>
    rw [hb] at h
    have h2 : changeWhen root =
        changeWhen ((Except.ok root : Except (List Char) XElem).toOption.getD
          (XElem.mk [] [] Option.none [])) := rfl
    rw [h2, ← h]
    rfl

/-- Witness for `c2_clock_flows_into_output` at the empty site. -/
theorem c2_clock_flows_into_output_witness :
    changeWhen ((generateTeiTree Option.none "2024-01-01T00:00:00".toList
      "ab".toList emptySite).toOption.getD (XElem.mk [] [] Option.none [])) =
      some "2024-01-01T00:00:00".toList := by
  have h := c2_clock_flows_into_output Option.none "2024-01-01T00:00:00".toList
    "ab".toList emptySite
    ((generateTeiTree Option.none "2024-01-01T00:00:00".toList
      "ab".toList emptySite).toOption.getD (XElem.mk [] [] Option.none []))
    rfl
  simpa using h

/-- **C9 — the serializer crashes instead of producing the head
element.**  Parsing `"### Title"` yields the expected Document with one
level-3 heading, but `_convert_ast_to_tei` creates every element with
`SubElement(None, tag, attrib)`, and `xml.etree.SubElement` raises
`TypeError` for a `None` parent — so serialization of the Document
raises instead of yielding a `head` element with `type="heading-3"` and
text `"Title"`. -/
theorem c9_serializer_crashes :
    parse Option.none "### Title".toList =
      .ok (ASTNode.mk .document
        (.list [ASTNode.mk .heading (.list [textNode "Title".toList])
          [("level".toList, .n 3)] []]) [] []) ∧
    convertAstToTei (ASTNode.mk .document
        (.list [ASTNode.mk .heading (.list [textNode "Title".toList])
          [("level".toList, .n 3)] []]) [] []) =
      .error subElementNoneError :=
  ⟨rfl, rfl⟩

theorem sortedLinks_eq_iff_perm (a b : List (List Char)) :
    sortedLinks a = sortedLinks b ↔ a.Perm b := by
  unfold sortedLinks
  constructor
  · intro h
    have pa := List.perm_insertionSort (α := List Char) (· ≤ ·) a
    have pb := List.perm_insertionSort (α := List Char) (· ≤ ·) b
    exact (pa.symm.trans (h ▸ pb))
  · intro h
    exact List.eq_of_perm_of_sorted
      ((List.perm_insertionSort _ a).trans
        (h.trans (List.perm_insertionSort _ b).symm))
      (List.sorted_insertionSort _ a)
      (List.sorted_insertionSort _ b)

/-- **C5.**  The round-trip verdict `isomorphic` equals the logical AND
of exactly three equality checks — section-count equality,
heading-sequence equality, and order-independent reference-target
equality (the sorted link lists agree exactly when the two link lists
are permutations of each other) — and the recorded byte checksums of
the two forms never influence the verdict (the verdict is unchanged
under arbitrary replacement of both checksums). -/
theorem c5_verdict_three_checks (oS fS : Nat)
    (oH fH : List (List Char)) (oL fL : List (List Char))
    (cO cF cO2 cF2 : List Char) :
    isIsomorphic (compareHtmlFiles oS fS oH fH oL fL cO cF) =
      (decide (oS = fS) && decide (oH = fH) && decide (oL.Perm fL)) ∧
    isIsomorphic (compareHtmlFiles oS fS oH fH oL fL cO cF) =
      isIsomorphic (compareHtmlFiles oS fS oH fH oL fL cO2 cF2) := by
  constructor
  · simp only [isIsomorphic, compareHtmlFiles, Option.isSome_none,
      Bool.false_eq_true, if_false]
    have hl : decide (sortedLinks oL = sortedLinks fL) = decide (oL.Perm fL) := by
      rcases Decidable.em (oL.Perm fL) with h | h
      · rw [decide_eq_true h, decide_eq_true ((sortedLinks_eq_iff_perm oL fL).mpr h)]
      · rw [decide_eq_false h,
          decide_eq_false (fun hc => h ((sortedLinks_eq_iff_perm oL fL).mp hc))]
    rw [hl]
  · rfl

/-- **C7.**  If either transformation step fails, the check
short-circuits: the report carries no comparison results, the verdict
is `isomorphic = false`, and the failing step is recorded as `Failed`
(`html_to_tei` when the first step failed, otherwise `tei_to_html`). -/
theorem c7_step_failure_short_circuits
    (h2t t2h : List Char → ConversionResult)
    (cmp : List Char → List Char → Comparison)
    (diffGen : List Char → List Char → List Char)
    (orig : List Char)
    (h : (h2t orig).success = false ∨
         (t2h (h2t orig).outputFile).success = false) :
    (testIsomorphism h2t t2h cmp diffGen orig).isomorphic = false ∧
    (testIsomorphism h2t t2h cmp diffGen orig).comparisons = none ∧
    (if (h2t orig).success then
      (testIsomorphism h2t t2h cmp diffGen orig).stepTeiToHtml =
        some "Failed".toList
     else
      (testIsomorphism h2t t2h cmp diffGen orig).stepHtmlToTei =
        some "Failed".toList) := by
  unfold testIsomorphism
  cases hs1 : (h2t orig).success with
  | false => simp [hs1]
  | true =>
    rcases h with h | h
    · rw [hs1] at h; cases h
    · simp [hs1, h]

/-- A transformation delegate that always fails (models a non-zero exit
from the external tool). -/
def failingTransform : List Char → ConversionResult :=
  fun f => { success := false, outputFile := [], inputFile := f,
             conversionTime := 0, checksum := [] }

/-- A transformation delegate that always succeeds and writes `out`. -/
def succeedingTransform (out : List Char) : List Char → ConversionResult :=
  fun f => { success := true, outputFile := out, inputFile := f,
             conversionTime := 0, checksum := [] }

/-- Witness for `c7_step_failure_short_circuits` with a succeeding
first step and a failing second step. -/
theorem c7_step_failure_short_circuits_witness :
    (testIsomorphism (succeedingTransform "t.xml".toList) failingTransform
      (fun _ _ => compareHtmlFiles 0 0 [] [] [] [] [] [])
      (fun _ _ => []) "orig.html".toList).isomorphic = false ∧
    (testIsomorphism (succeedingTransform "t.xml".toList) failingTransform
      (fun _ _ => compareHtmlFiles 0 0 [] [] [] [] [] [])
      (fun _ _ => []) "orig.html".toList).comparisons = none ∧
    (if (succeedingTransform "t.xml".toList "orig.html".toList).success then
      (testIsomorphism (succeedingTransform "t.xml".toList) failingTransform
        (fun _ _ => compareHtmlFiles 0 0 [] [] [] [] [] [])
        (fun _ _ => []) "orig.html".toList).stepTeiToHtml = some "Failed".toList
     else
      (testIsomorphism (succeedingTransform "t.xml".toList) failingTransform
        (fun _ _ => compareHtmlFiles 0 0 [] [] [] [] [] [])
        (fun _ _ => []) "orig.html".toList).stepHtmlToTei = some "Failed".toList) :=
  c7_step_failure_short_circuits (succeedingTransform "t.xml".toList)
    failingTransform (fun _ _ => compareHtmlFiles 0 0 [] [] [] [] [] [])
    (fun _ _ => []) "orig.html".toList (Or.inr rfl)

end IPC
